import Mathlib

/-!
Verification of the planning-document lifecycle scripts
(`src/plugins/planning/skills/planning/scripts/*.py` and
`src/plugins/planning/migrations/v0.2.1/migrate.py`).

Python strings are modelled as `List Char` (the scripts only ever handle
ASCII identifiers, dates and markdown text).  Python regular expressions
that appear in the scripts are small and fixed; each one is embedded as an
explicit matching function whose behaviour (including the backtracking
order of `\s*` against the following groups) is reproduced deterministically.
Filesystem state is modelled as per-document-type directories holding
`(filename, content)` pairs; every operation returns both its result
(`Except` of the error taxonomy) and the filesystem state after the call,
so that partial writes made before a failure stay visible.
-/

deriving instance DecidableEq for Except

namespace VibeDoc

abbrev Str := List Char

/-- Shorthand: the character list of a string literal. -/
def lit (s : String) : Str := s.data

/-- Python `str.isspace`-style whitespace set used by `\s` and `strip()`
(ASCII subset; the documents involved are ASCII). -/
def isSpacePy (c : Char) : Bool :=
  c = ' ' || c = '\t' || c = '\n' || c = '\r' || c = '\x0b' || c = '\x0c'

/-- Python `str.upper()` on ASCII text. -/
def upperStr (s : Str) : Str := s.map Char.toUpper

/-- Python `str.lower()` on ASCII text. -/
def lowerStr (s : Str) : Str := s.map Char.toLower

/-- Python `str.strip()` (no argument: strip whitespace from both ends). -/
def stripStr (s : Str) : Str :=
  ((s.dropWhile isSpacePy).reverse.dropWhile isSpacePy).reverse

/-- Python `str.rstrip()` (strip trailing whitespace). -/
def rstrip (s : Str) : Str := (s.reverse.dropWhile isSpacePy).reverse

/-- Python `str.lstrip('\n')`. -/
def lstripNl (s : Str) : Str := s.dropWhile (· = '\n')

/-- Python `str.title()`: upper-case the first letter of every alphabetic
run, lower-case the rest of the run. -/
def titleStr : Str → Str :=
  go false
where
  go (prevAlpha : Bool) : Str → Str
    | [] => []
    | c :: cs =>
      let c' := if c.isAlpha then (if prevAlpha then c.toLower else c.toUpper) else c
      c' :: go c.isAlpha cs

/-- Value of a digit string, as `int(...)` computes it. -/
def digitsToNat (s : Str) : Nat :=
  s.foldl (fun a c => a * 10 + (c.toNat - '0'.toNat)) 0

def allDigits (s : Str) : Bool := s.all Char.isDigit

/-- Decimal digits of `n` (no padding). -/
def natDigits (n : Nat) : Str := (Nat.toDigits 10 n)

/-- Python `f"{n:03d}"`: zero-pad to width 3. -/
def pad3 (n : Nat) : Str :=
  let d := natDigits n
  List.replicate (3 - d.length) '0' ++ d

/-- Python string `<` (lexicographic on code points). -/
def strLt : Str → Str → Bool
  | [], [] => false
  | [], _ :: _ => true
  | _ :: _, [] => false
  | a :: as, b :: bs =>
    if a.toNat < b.toNat then true
    else if b.toNat < a.toNat then false
    else strLt as bs

/-- Does `pat` occur as a contiguous substring of `s` (Python `in`)? -/
def containsSub (pat : Str) : Str → Bool
  | [] => pat.isPrefixOf ([] : Str)
  | c :: cs => pat.isPrefixOf (c :: cs) || containsSub pat cs

/-- Split `s` at the first occurrence of `pat` (`pat` nonempty in all uses):
returns the part before and the part after the occurrence. -/
def splitOnFirst (pat : Str) : Str → Option (Str × Str)
  | [] => if pat.isEmpty then some ([], []) else none
  | c :: cs =>
    if pat.isPrefixOf (c :: cs) then some ([], (c :: cs).drop pat.length)
    else match splitOnFirst pat cs with
      | some (a, b) => some (c :: a, b)
      | none => none

/-- Python `str.split(sep)` for a single-character separator
(`"a,b".split(',')` ↦ `["a","b"]`, `"".split(',')` ↦ `[""]`). -/
def splitSep (sep : Char) : Str → List Str
  | [] => [[]]
  | c :: rest =>
    match splitSep sep rest with
    | [] => [[c]]
    | l :: ls => if c = sep then [] :: l :: ls else (c :: l) :: ls

/-- Split a text into its lines at `'\n'`. -/
def splitLines : Str → List Str := splitSep '\n'

/-- Python `sep.join(parts)` for a single-character separator. -/
def joinSep (sep : Char) : List Str → Str
  | [] => []
  | [l] => l
  | l :: ls => l ++ sep :: joinSep sep ls

/-- Membership of a Python `x in list` test: plain list membership on
`Str`. -/
def strMem (x : Str) (l : List Str) : Bool := l.contains x

/-! ## Frontmatter codec (`frontmatter.py`)

YAML frontmatter values appearing in these documents: scalars, `null`, and
lists of id strings.  `parse_frontmatter` / `render_frontmatter` each have
two branches; the in-source one (the `HAS_YAML = False` fallback, lines
52–72 and 94–107) is embedded in full, and the PyYAML branch (lines 45–50)
is embedded with the external `yaml.safe_load` call abstracted as an
oracle parameter. -/

/-- A frontmatter value as the fallback parser/renderer handles it. -/
inductive Value where
  | vnull : Value
  | vstr : Str → Value
  | vlist : List Str → Value
deriving DecidableEq, Repr

abbrev Fm := List (Str × Value)

/-- Python `dict.__setitem__`: replace in place if the key exists
(preserving its position), else append. -/
def assocSet (m : Fm) (k : Str) (v : Value) : Fm :=
  match m with
  | [] => [(k, v)]
  | (k', v') :: rest =>
    if k' = k then (k', v) :: rest else (k', v') :: assocSet rest k v

/-- Python `dict.get(k, default)`. -/
def assocGet (m : Fm) (k : Str) : Option Value :=
  match m with
  | [] => none
  | (k', v') :: rest => if k' = k then some v' else assocGet rest k

/-- Python `sep.join(parts)` for a multi-character separator. -/
def joinWith (sep : Str) : List Str → Str
  | [] => []
  | [l] => l
  | l :: ls => l ++ sep ++ joinWith sep ls

/-- One `key: value` line of the fallback renderer (`None` ↦ `null`,
`[]` ↦ `[]`, a list ↦ `[a, b]` via `', '.join`, a string ↦ itself). -/
def renderLine : Str × Value → Str
  | (k, .vnull) => k ++ lit ": null"
  | (k, .vlist []) => k ++ lit ": []"
  | (k, .vlist xs) => k ++ lit ": [" ++ joinWith (lit ", ") xs ++ [']']
  | (k, .vstr s) => k ++ lit ": " ++ s

/-- `render_frontmatter` (fallback branch): `'\n'.join(['---'] + lines +
['---']) + '\n'`. -/
def renderFm (m : Fm) : Str :=
  joinSep '\n' (lit "---" :: m.map renderLine ++ [lit "---"]) ++ ['\n']

/-- The `FRONTMATTER_PATTERN` match `^---\n(.*?)\n---\n` (DOTALL): content
starting with a `---` line, then the non-greedy group up to the first
`\n---\n`, then the body. -/
def fmSplit (content : Str) : Option (Str × Str) :=
  if (lit "---\n").isPrefixOf content then
    splitOnFirst (lit "\n---\n") (content.drop 4)
  else none

/-- Classify one raw (already `partition`ed and stripped) scalar of the
fallback parser: `null`/`~`/empty ↦ `None`, `[...]` ↦ list,
quote-wrapped ↦ unquoted, else the bare string. -/
def classifyVal (v : Str) : Value :=
  if lowerStr v = lit "null" || lowerStr v = lit "~" || v = [] then .vnull
  else if v.head? = some '[' && v.getLast? = some ']' then
    let items := splitSep ',' (v.drop 1 |>.dropLast)
    .vlist ((items.filter (fun it => stripStr it ≠ [])).map
      (fun it => (stripStr it).dropWhile (fun c => c = '"' || c = '\'')
        |>.reverse.dropWhile (fun c => c = '"' || c = '\'') |>.reverse))
  else if v.head? = some '"' && v.getLast? = some '"' then v.drop 1 |>.dropLast
    |> .vstr
  else if v.head? = some '\'' && v.getLast? = some '\'' then v.drop 1 |>.dropLast
    |> .vstr
  else .vstr v

/-- One line of the fallback loop: a line with a `:` is `partition`ed at
its first colon, key and value are stripped, and the value classified; a
line without a colon is skipped. -/
def parseLineStep (m : Fm) (line : Str) : Fm :=
  match splitOnFirst [':'] line with
  | none => m
  | some (k, v) => assocSet m (stripStr k) (classifyVal (stripStr v))

/-- The fallback line loop of `parse_frontmatter`. -/
def parseBasicFm (text : Str) : Fm :=
  (splitLines text).foldl parseLineStep []

/-- `parse_frontmatter` (fallback branch): no delimited block ↦
`({}, content)`; otherwise parse the block line by line. -/
def parseFm (content : Str) : Fm × Str :=
  match fmSplit content with
  | none => ([], content)
  | some (g, body) => (parseBasicFm g, body)

/-- Outcome of the external `yaml.safe_load` call: it raises `YAMLError`,
returns a falsy value (`None`), or returns a mapping. -/
inductive YamlRes where
  | raises : YamlRes
  | falsy : YamlRes
  | mapping : Fm → YamlRes

/-- `parse_frontmatter` (PyYAML branch, lines 45–50), with `yaml.safe_load`
abstracted as `oracle`: a `YAMLError` falls open to `({}, content)` with
the original content undivided; a falsy load yields `({}, body)`. -/
def parseFmYaml (oracle : Str → YamlRes) (content : Str) : Fm × Str :=
  match fmSplit content with
  | none => ([], content)
  | some (g, body) =>
    match oracle g with
    | .raises => ([], content)
    | .falsy => ([], body)
    | .mapping d => (d, body)

/-- `has_frontmatter`. -/
def hasFm (content : Str) : Bool := (fmSplit content).isSome

/-- `ADDENDA_SEPARATOR`. -/
def addendaSep : Str := lit "\n\n---\n\n## Addenda\n"

/-- `has_addenda_section`: `ADDENDA_PATTERN` (`\n---\n\n## Addenda\n`,
IGNORECASE) found anywhere. -/
def hasAddenda (content : Str) : Bool :=
  containsSub (lowerStr (lit "\n---\n\n## Addenda\n")) (lowerStr content)

/-- `frontmatter.append_addendum` (and the identical logic in
`append.py`): touch `modified` when frontmatter is present, then append
the dated subsection, creating the Addenda marker (and its preceding
rule) when absent. -/
def appendAddendumC (today title body content : Str) : Str :=
  let entry : Str := '\n' :: lit "### " ++ today ++ lit ": " ++ title
    ++ lit "\n\n" ++ body ++ ['\n']
  let (fm, docBody) := parseFm content
  let content := if fm ≠ [] then renderFm (assocSet fm (lit "modified") (.vstr today)) ++ docBody
    else content
  if hasAddenda content then rstrip content ++ entry
  else rstrip content ++ addendaSep ++ lstripNl entry

/-! ## Document type registry (`config.py`)

`DEFAULT_TYPES` with the default configuration (no `vibe-hacker.json`
overrides: config may only override the storage directory per type, and
the claims are about the default registry).  The default planning root is
`docs/planning`. -/

inductive DType where
  | adr | fdp | ap | report
deriving DecidableEq, Repr

/-- Storage directory name (`DEFAULT_TYPES[t]['dir']`). -/
def dirNameOf : DType → Str
  | .adr => lit "decisions"
  | .fdp => lit "designs"
  | .ap => lit "action-plans"
  | .report => lit "reports"

/-- Filename prefix (`DEFAULT_TYPES[t]['prefix']`). -/
def pfxOf : DType → Str
  | .adr => []
  | .fdp => lit "FDP-"
  | .ap => lit "AP-"
  | .report => lit "RPT-"

/-- `statuses.initial`. -/
def initialOf : DType → Str
  | .adr => lit "proposed"
  | .fdp => lit "proposed"
  | .ap => lit "active"
  | .report => lit "draft"

/-- `statuses.editable`. -/
def editableOf : DType → List Str
  | .adr => [lit "proposed"]
  | .fdp => [lit "proposed", lit "in progress"]
  | .ap => [lit "active"]
  | .report => [lit "draft"]

/-- `statuses.final`. -/
def finalOf : DType → List Str
  | .adr => [lit "accepted"]
  | .fdp => [lit "implemented"]
  | .ap => [lit "completed"]
  | .report => [lit "published"]

/-- `statuses.archive_triggers`. -/
def archiveTriggersOf : DType → List Str
  | .adr => [lit "deprecated", lit "superseded"]
  | .fdp => [lit "implemented", lit "abandoned"]
  | .ap => [lit "completed", lit "abandoned"]
  | .report => [lit "superseded", lit "obsoleted"]

/-- Insertion sort by Python string `<` (`sorted`). -/
def insertSorted (x : Str) : List Str → List Str
  | [] => [x]
  | y :: ys => if strLt x y then x :: y :: ys else y :: insertSorted x ys

def sortStr (l : List Str) : List Str := l.foldr insertSorted []

/-- `get_valid_statuses`: the union (as a set, so deduplicated) of
initial, editable, final and archive-trigger statuses, with the empty
string discarded, sorted. -/
def getValidStatuses (t : DType) : List Str :=
  sortStr (((initialOf t :: editableOf t ++ finalOf t ++ archiveTriggersOf t).filter
    (· ≠ [])).eraseDups)

/-- `is_archive_trigger` (case-insensitive membership). -/
def isArchiveTrigger (t : DType) (status : Str) : Bool :=
  ((archiveTriggersOf t).map lowerStr).contains (lowerStr status)

/-- `is_status_editable` (case-insensitive membership). -/
def isStatusEditable (t : DType) (status : Str) : Bool :=
  ((editableOf t).map lowerStr).contains (lowerStr status)

/-- `get_doc_dir t` with the default planning root:
`docs/planning/<dir>`. -/
def dirPathOf (t : DType) : Str := lit "docs/planning/" ++ dirNameOf t

/-- The error taxonomy of the scripts, one constructor per distinct
`raise` message kind (`FileNotFoundError` "Document not found" ↦
`notFound`; `ValueError` "Invalid document ID" ↦ `invalidId`;
"Invalid status" ↦ `invalidStatus`; `FileExistsError` ↦ `alreadyExists`;
"already archived"/"Cannot update archived document" ↦ `alreadyArchived`;
"Could not find Status section" ↦ `malformedDocument`; "is already
superseded by" ↦ `alreadyConflicted`; an uncaught `AttributeError` on a
non-list `related` value ↦ `typeErr`). -/
inductive Err where
  | notFound | invalidId | invalidStatus | alreadyExists | alreadyArchived
  | malformedDocument | alreadyConflicted | typeErr
deriving DecidableEq, Repr

/-- Match `^<pat>-(\d+)$` against an (already upper-cased) id. -/
def matchIdPat (pat u : Str) : Option Nat :=
  if pat.isPrefixOf u then
    let ds := u.drop pat.length
    if ds ≠ [] ∧ allDigits ds then some (digitsToNat ds) else none
  else none

/-- `parse_doc_id` as it appears in `update-status.py`, `append.py`,
`relate.py`, `edit.py` and `supersede.py`: upper-case, then try the
ADR/FDP/AP/RPT patterns in order. -/
def parseDocId (docId : Str) : Except Err (DType × Nat) :=
  let u := upperStr docId
  match matchIdPat (lit "ADR-") u with
  | some n => .ok (.adr, n)
  | none =>
  match matchIdPat (lit "FDP-") u with
  | some n => .ok (.fdp, n)
  | none =>
  match matchIdPat (lit "AP-") u with
  | some n => .ok (.ap, n)
  | none =>
  match matchIdPat (lit "RPT-") u with
  | some n => .ok (.report, n)
  | none => .error .invalidId

/-- `parse_doc_id` as it appears in `archive.py`: its `get_doc_types`
table only has adr/fdp/ap entries, so only those three id patterns are
tried. -/
def parseDocIdArchive (docId : Str) : Except Err (DType × Nat) :=
  let u := upperStr docId
  match matchIdPat (lit "ADR-") u with
  | some n => .ok (.adr, n)
  | none =>
  match matchIdPat (lit "FDP-") u with
  | some n => .ok (.fdp, n)
  | none =>
  match matchIdPat (lit "AP-") u with
  | some n => .ok (.ap, n)
  | none => .error .invalidId

/-! ## The `## Status` regular expressions

Three fixed patterns from the scripts, embedded with Python `re`'s
backtracking behaviour reproduced deterministically:

* `(## Status\s*\n\s*\n?)([^\n#]+)` — `re.subn`, replace every match
  (`update-status.py`, `archive.py`, `supersede.py`);
* `## Status\s*\n\s*\n?[^\n#]+\n` — `re.search` for the Archived-marker
  insertion point (`archive.py`);
* `^## Status\s*\n+([^\n#]+)` with MULTILINE — `re.search`
  (`extract_status_from_body`).

For the first pattern, after the literal `## Status` the engine consumes
`\s*\n\s*\n?`: writing `w` for the maximal whitespace run that follows
the literal, backtracking (greedy components, tried longest-first) ends
up consuming exactly `d` whitespace characters for the largest `d ≤ |w|`
such that the consumed part contains a newline and the character at `d`
exists and can start `[^\n#]+` (is neither `'\n'` nor `'#'`); the
pattern fails at this position when no such `d` exists.  The second
pattern additionally requires the greedy `[^\n#]+` run to be terminated
by a literal `'\n'`, which the engine folds into the same search over
`d`.  In the third pattern the consumed part must end with a newline
(`\n+`) instead of merely containing one. -/

/-- Largest `d` in `1..hi` satisfying `p` (the order in which the
backtracking engine tries candidate whitespace splits). -/
def descendD (p : Nat → Bool) : Nat → Option Nat
  | 0 => none
  | d + 1 => if p (d + 1) then some (d + 1) else descendD p d

/-- Can `[^\n#]+` start at offset `d` of `r`? -/
def validStartAt (r : Str) (d : Nat) : Bool :=
  match (r.drop d).head? with
  | some c => ¬(c = '\n' || c = '#')
  | none => false

/-- Match `(## Status\s*\n\s*\n?)([^\n#]+)` at the head of `s`:
`some (group1, group2, rest)`. -/
def statusMatchHere (s : Str) : Option (Str × Str × Str) :=
  if (lit "## Status").isPrefixOf s then
    let r := s.drop 9
    let w := r.takeWhile isSpacePy
    match descendD (fun d => (w.take d).contains '\n' && validStartAt r d) w.length with
    | none => none
    | some d =>
      let g2 := (r.drop d).takeWhile (fun c => ¬(c = '\n' || c = '#'))
      some (lit "## Status" ++ r.take d, g2, r.drop (d + g2.length))
  else none

/-- Scan for `re.subn` with the status pattern: `skip` counts characters
of an already-replaced match still to be dropped from the input. -/
def statusSubnAux (rep : Str) : Nat → Str → Str × Nat
  | _, [] => ([], 0)
  | skip + 1, _ :: cs => statusSubnAux rep skip cs
  | 0, c :: cs =>
    match statusMatchHere (c :: cs) with
    | some (g1, _, rest) =>
      let p := statusSubnAux rep (cs.length - rest.length) cs
      (g1 ++ rep ++ p.1, p.2 + 1)
    | none =>
      let p := statusSubnAux rep 0 cs
      (c :: p.1, p.2)

/-- `re.subn` with the status pattern: replace group 2 of every
(non-overlapping, leftmost-first) match by `rep`, returning the new text
and the match count. -/
def statusSubn (rep : Str) (s : Str) : Str × Nat := statusSubnAux rep 0 s

/-- Length of a match of `## Status\s*\n\s*\n?[^\n#]+\n` at the head of
`s` (the Archived-marker insertion pattern). -/
def statusLineHere (s : Str) : Option Nat :=
  if (lit "## Status").isPrefixOf s then
    let r := s.drop 9
    let w := r.takeWhile isSpacePy
    let run := fun d => (r.drop d).takeWhile (fun c => ¬(c = '\n' || c = '#'))
    match descendD (fun d => (w.take d).contains '\n' && validStartAt r d
        && ((r.drop (d + (run d).length)).head? = some '\n' : Bool)) w.length with
    | none => none
    | some d => some (9 + d + (run d).length + 1)
  else none

/-- `re.search` with the insertion pattern: split `s` at the end of the
leftmost match (`some (upToMatchEnd, after)`). -/
def statusLineSearchSplit : Str → Option (Str × Str)
  | [] => none
  | c :: cs =>
    match statusLineHere (c :: cs) with
    | some k => some ((c :: cs).take k, (c :: cs).drop k)
    | none =>
      match statusLineSearchSplit cs with
      | some (a, b) => some (c :: a, b)
      | none => none

/-- Match `## Status\s*\n+([^\n#]+)` at the head of `s` (for the
MULTILINE search of `extract_status_from_body`); returns the stripped
group. -/
def statusBodyHere (s : Str) : Option Str :=
  if (lit "## Status").isPrefixOf s then
    let r := s.drop 9
    let w := r.takeWhile isSpacePy
    match descendD (fun d => ((w.take d).getLast? = some '\n' : Bool) && validStartAt r d)
        w.length with
    | none => none
    | some d =>
      some (stripStr ((r.drop d).takeWhile (fun c => ¬(c = '\n' || c = '#'))))
  else none

/-- MULTILINE scan: `atStart` records whether the current position is a
line start (text start or just after a `'\n'`). -/
def extractStatusAux : Bool → Str → Option Str
  | _, [] => none
  | atStart, c :: cs =>
    if atStart then
      match statusBodyHere (c :: cs) with
      | some v => some v
      | none => extractStatusAux (c = '\n') cs
    else extractStatusAux (c = '\n') cs

/-- `extract_status_from_body`: leftmost MULTILINE match, trying the
start of the text and then the position after each newline. -/
def extractStatusFromBody (content : Str) : Option Str :=
  extractStatusAux true content

/-! ## Filesystem model and the document locator

A per-type directory holds the `(filename, content)` pairs of its active
files and of the files in its `archive/` child; the project state is the
four type directories.  Directory iteration order is the list order (the
scripts' behaviour under `iterdir` is order-dependent and the design
leaves that order unspecified).  Directories are modelled as always
existing (a missing directory behaves as an empty one; `mkdir` calls are
no-ops in the model). -/

structure Dir where
  files : List (Str × Str)
  archived : List (Str × Str)
deriving DecidableEq, Repr

structure PState where
  adrDir : Dir
  fdpDir : Dir
  apDir : Dir
  reportDir : Dir
deriving DecidableEq, Repr

def dirOf (st : PState) : DType → Dir
  | .adr => st.adrDir
  | .fdp => st.fdpDir
  | .ap => st.apDir
  | .report => st.reportDir

def setDir (st : PState) : DType → Dir → PState
  | .adr, d => { st with adrDir := d }
  | .fdp, d => { st with fdpDir := d }
  | .ap, d => { st with apDir := d }
  | .report, d => { st with reportDir := d }

/-- Match the filename pattern `^<pfx>(\d+)-.*\.md$` (the patterns built
by `find_document`, `find_next_number` and `archive.py.get_doc_types`),
returning the embedded number.  (`.*` does not cross a newline; filenames
containing `'\n'` are rejected here, where Python's `$` would allow one
trailing newline — no script ever creates such a filename.) -/
def matchNumber (pfx name : Str) : Option Nat :=
  if pfx.isPrefixOf name then
    let r := name.drop pfx.length
    let ds := r.takeWhile Char.isDigit
    match r.drop ds.length with
    | '-' :: tail =>
      if ds ≠ [] && !tail.contains '\n' && (lit ".md").isSuffixOf tail then
        some (digitsToNat ds)
      else none
    | _ => none
  else none

/-- Scan a directory listing for the first file whose name matches the
pattern with the wanted number. -/
def findIn (l : List (Str × Str)) (pfx : Str) (n : Nat) : Option (Str × Str) :=
  l.find? (fun p => matchNumber pfx p.1 = some n)

/-- `find_document` as in `update-status.py` and `archive.py`: the active
directory only. -/
def findActive (d : Dir) (pfx : Str) (n : Nat) : Option (Str × Str) :=
  findIn d.files pfx n

/-- `filepath.parts` of the path of an active file of type `t` under the
default configuration. -/
def partsOf (t : DType) (name : Str) : List Str :=
  [lit "docs", lit "planning", dirNameOf t, name]

/-- `str(filepath)` of an active file of type `t`. -/
def pathStrOf (t : DType) (name : Str) : Str :=
  dirPathOf t ++ '/' :: name

/-- Replace the content of the named active file. -/
def writeActive (st : PState) (t : DType) (name nc : Str) : PState :=
  let d := dirOf st t
  setDir st t { d with files := d.files.map (fun p => if p.1 = name then (p.1, nc) else p) }

/-- `shutil.move` of an active file into the `archive/` child. -/
def moveToArchive (st : PState) (t : DType) (name : Str) : PState :=
  let d := dirOf st t
  match d.files.find? (fun p => p.1 = name) with
  | none => st
  | some entry =>
    setDir st t { files := d.files.eraseP (fun p => p.1 = name),
                  archived := d.archived ++ [entry] }

/-! ## Lifecycle operations

Each operation takes the date (`date.today().isoformat()`) as an explicit
`today` argument and returns `(result, state-after-the-call)`, the state
reflecting any writes made before a failure. -/

/-- `update_status_in_content` (`update-status.py` lines 105–133). -/
def updateStatusInContent (today newStatus content : Str) : Except Err Str :=
  let (fm, body) := parseFm content
  let nc := if fm ≠ [] then
      renderFm (assocSet (assocSet fm (lit "status") (.vstr (lowerStr newStatus)))
        (lit "modified") (.vstr today)) ++ body
    else content
  let p := statusSubn (titleStr newStatus) nc
  if p.2 = 0 then .error .malformedDocument else .ok p.1

/-- `extract_current_status` (frontmatter `status` first, else the body
`## Status` section, else `Unknown`). -/
def extractCurrentStatus (content : Str) : Value :=
  let fm := (parseFm content).1
  let fallback : Value :=
    match extractStatusFromBody content with
    | some s => .vstr s
    | none => .vstr (lit "Unknown")
  if fm ≠ [] then
    match assocGet fm (lit "status") with
    | some v => v
    | none => fallback
  else fallback

/-- `validate_status`: `new_status.lower().strip()` must be a member of
the lower-cased valid list. -/
def validStatusQ (t : DType) (newStatus : Str) : Bool :=
  ((getValidStatuses t).map lowerStr).contains (stripStr (lowerStr newStatus))

/-- `update_document_status` (`update-status.py` lines 149–183). -/
def updateDocumentStatus (today docId newStatus : Str) (st : PState) :
    Except Err (DType × Str × Value × Bool) × PState :=
  match parseDocId docId with
  | .error e => (.error e, st)
  | .ok (ty, n) =>
    if !validStatusQ ty newStatus then (.error .invalidStatus, st)
    else
      match findActive (dirOf st ty) (pfxOf ty) n with
      | none => (.error .notFound, st)
      | some (name, content) =>
        if strMem (lit "archive") (partsOf ty name) then (.error .alreadyArchived, st)
        else
          let old := extractCurrentStatus content
          match updateStatusInContent today newStatus content with
          | .error e => (.error e, st)
          | .ok nc =>
            (.ok (ty, name, old, isArchiveTrigger ty newStatus), writeActive st ty name nc)

/-- `archive.py.update_status` (lines 82–118): rewrite the Status value to
`newStatus` (always called with the default `"Archived"`), then — since
the guard `'Archived' not in original or new_status == "Archived"` is
evaluated against the original file — insert an `## Archived` block after
the Status section when a further `## ` section follows it. -/
def archUpdateStatus (today newStatus content : Str) : Except Err Str :=
  let p := statusSubn newStatus content
  if p.2 = 0 then .error .malformedDocument
  else if !containsSub (lit "Archived") content || newStatus = lit "Archived" then
    match statusLineSearchSplit p.1 with
    | some (a, b) =>
      if containsSub (lit "\n## ") b then
        .ok (a ++ lit "\n## Archived\n\n" ++ today ++ '\n' :: b)
      else .ok p.1
    | none => .ok p.1
  else .ok p.1

/-- `archive_document` after id parsing (`archive.py` lines 121–149):
locate in the active directory, refuse when the path string contains
`archive`, rewrite and write back, then move — failing `AlreadyExists`
when the destination name is taken (the write has already happened). -/
def archiveCore (today : Str) (ty : DType) (n : Nat) (st : PState) :
    Except Err Str × PState :=
  match findActive (dirOf st ty) (pfxOf ty) n with
  | none => (.error .notFound, st)
  | some (name, content) =>
    if containsSub (lit "archive") (pathStrOf ty name) then (.error .alreadyArchived, st)
    else
      match archUpdateStatus today (lit "Archived") content with
      | .error e => (.error e, st)
      | .ok nc =>
        let st1 := writeActive st ty name nc
        if (dirOf st1 ty).archived.any (fun p => p.1 = name) then (.error .alreadyExists, st1)
        else (.ok (dirPathOf ty ++ lit "/archive/" ++ name), moveToArchive st1 ty name)

/-- `archive_document` (`archive.py`). -/
def archiveDocument (today docId : Str) (st : PState) : Except Err Str × PState :=
  match parseDocIdArchive docId with
  | .error e => (.error e, st)
  | .ok (ty, n) => archiveCore today ty n st

/-! ## `relate.py` -/

/-- A file location (`relate.py`'s `find_document` searches the active
directory and then `archive/`). -/
structure Loc where
  ty : DType
  inArchive : Bool
  name : Str
deriving DecidableEq, Repr

def findBothLoc (st : PState) (ty : DType) (n : Nat) : Option (Loc × Str) :=
  match findIn (dirOf st ty).files (pfxOf ty) n with
  | some (name, c) => some (⟨ty, false, name⟩, c)
  | none =>
    match findIn (dirOf st ty).archived (pfxOf ty) n with
    | some (name, c) => some (⟨ty, true, name⟩, c)
    | none => none

/-- `find_document_by_id`. -/
def findLocById (docId : Str) (st : PState) : Except Err Loc :=
  match parseDocId docId with
  | .error e => .error e
  | .ok (ty, n) =>
    match findBothLoc st ty n with
    | none => .error .notFound
    | some (loc, _) => .ok loc

def readLoc (st : PState) (loc : Loc) : Str :=
  let l := if loc.inArchive then (dirOf st loc.ty).archived else (dirOf st loc.ty).files
  ((l.find? (fun p => p.1 = loc.name)).map (·.2)).getD []

def writeLoc (st : PState) (loc : Loc) (nc : Str) : PState :=
  let d := dirOf st loc.ty
  let upd := fun (l : List (Str × Str)) => l.map (fun p => if p.1 = loc.name then (p.1, nc) else p)
  if loc.inArchive then setDir st loc.ty { d with archived := upd d.archived }
  else setDir st loc.ty { d with files := upd d.files }

/-- `add_related` (`relate.py` lines 93–129): computes the written-back
content; `ok (false, _)` is the no-write path (no frontmatter, or the id
already present case-insensitively).  A `related` value that is a plain
string would crash the script's `related.append` with an uncaught
`AttributeError` (`typeErr`). -/
def addRelated (today relId content : Str) : Except Err (Bool × Str) :=
  let (fm, body) := parseFm content
  if fm = [] then .ok (false, content)
  else
    match assocGet fm (lit "related") with
    | some (.vstr _) => .error .typeErr
    | r =>
      let related := match r with
        | some (.vlist xs) => xs
        | _ => []
      if (related.map upperStr).contains (upperStr relId) then .ok (false, content)
      else
        let fm' := assocSet (assocSet fm (lit "related") (.vlist (related ++ [upperStr relId])))
          (lit "modified") (.vstr today)
        .ok (true, renderFm fm' ++ body)

/-- The body of `relate_documents`' loop over `related_ids`. -/
def relateGo (today docId : Str) (mainLoc : Loc) (bidir : Bool) :
    List Str → PState → List Str → List Str → Except Err (List Str × List Str) × PState
  | [], st, added, present => (.ok (added.reverse, present.reverse), st)
  | rid :: rest, st, added, present =>
    match findLocById rid st with
    | .error e => (.error e, st)
    | .ok _ =>
      match addRelated today rid (readLoc st mainLoc) with
      | .error e => (.error e, st)
      | .ok (didAdd, nc) =>
        let st := if didAdd then writeLoc st mainLoc nc else st
        let (added, present) := if didAdd then (rid :: added, present) else (added, rid :: present)
        if bidir then
          match findLocById rid st with
          | .error e => (.error e, st)
          | .ok rloc =>
            match addRelated today docId (readLoc st rloc) with
            | .error e => (.error e, st)
            | .ok (didAdd2, nc2) =>
              let st := if didAdd2 then writeLoc st rloc nc2 else st
              relateGo today docId mainLoc bidir rest st added present
        else relateGo today docId mainLoc bidir rest st added present

/-- `relate_documents` (`relate.py` lines 132–165). -/
def relateDocuments (today docId : Str) (relIds : List Str) (bidir : Bool) (st : PState) :
    Except Err (List Str × List Str) × PState :=
  match findLocById docId st with
  | .error e => (.error e, st)
  | .ok mainLoc => relateGo today docId mainLoc bidir relIds st [] []

/-! ## `new.py`: create with auto-numbering -/

/-- Collapse runs of characters satisfying `p` into one `rep` each. -/
def collapseRuns (p : Char → Bool) (rep : Char) : Bool → Str → Str
  | _, [] => []
  | inRun, c :: cs =>
    if p c then
      if inRun then collapseRuns p rep true cs
      else rep :: collapseRuns p rep true cs
    else c :: collapseRuns p rep false cs

/-- `slugify`: lower-case, drop characters outside `[a-z0-9\s-]`,
collapse whitespace/underscore runs to `-`, collapse `-` runs, strip
leading/trailing `-`. -/
def slugify (title : Str) : Str :=
  let s := lowerStr title
  let s := s.filter (fun c => ('a' ≤ c && c ≤ 'z') || c.isDigit || isSpacePy c || c = '-')
  let s := collapseRuns (fun c => isSpacePy c || c = '_') '-' false s
  let s := collapseRuns (fun c => c = '-') '-' false s
  ((s.dropWhile (· = '-')).reverse.dropWhile (· = '-')).reverse

/-- `format_filename` with the default formats:
`<pfx><number:03d>-<slug>.md`. -/
def formatFilename (pfx : Str) (n : Nat) (slug : Str) : Str :=
  pfx ++ pad3 n ++ '-' :: slug ++ lit ".md"

/-- Matched numbers across the active and archive listings of a
directory. -/
def numbersOf (pfx : Str) (d : Dir) : List Nat :=
  (d.files ++ d.archived).filterMap (fun p => matchNumber pfx p.1)

/-- `find_next_number`: 1 + the maximum matched number over the active
directory and its `archive/` child (0 when none match). -/
def findNextNumber (pfx : Str) (d : Dir) : Nat :=
  (numbersOf pfx d).foldl Nat.max 0 + 1

/-- `create_document` (`new.py` lines 117–154) on the type's directory:
`tmpl` stands for the substituted template text (the template files are
not part of the scripts).  Returns the new filename and its number. -/
def createInDir (tmpl pfx title : Str) (d : Dir) : Except Err (Str × Nat) × Dir :=
  let n := findNextNumber pfx d
  let name := formatFilename pfx n (slugify title)
  if d.files.any (fun p => p.1 = name) then (.error .alreadyExists, d)
  else (.ok (name, n), { d with files := d.files ++ [(name, tmpl)] })

/-- A create or archive step of one document type, for the numbering
claims. -/
inductive DocOp where
  | create (title : Str)
  | archiveDoc (n : Nat)

/-- Run one step on the project state; a create also reports its assigned
number. -/
def execOp (today tmpl : Str) (ty : DType) (st : PState) : DocOp → PState × Option Nat
  | .create title =>
    let p := createInDir tmpl (pfxOf ty) title (dirOf st ty)
    (setDir st ty p.2, match p.1 with | .ok (_, n) => some n | .error _ => none)
  | .archiveDoc n => ((archiveCore today ty n st).2, none)

/-- Run a sequence of steps, collecting the numbers assigned by the
creates that succeeded. -/
def execOps (today tmpl : Str) (ty : DType) (st : PState) : List DocOp → PState × List Nat
  | [] => (st, [])
  | op :: rest =>
    let p := execOp today tmpl ty st op
    let q := execOps today tmpl ty p.1 rest
    (q.1, (match p.2 with | some n => [n] | none => []) ++ q.2)

/-! ## Migration engine (`vibe-doc.py`) -/

structure MEntry where
  version : Str
  /-- Truthiness of the manifest entry's `migration` field. -/
  hasScript : Bool
deriving DecidableEq, Repr

structure Manifest where
  current : Str
  versions : List MEntry

/-- The project as the migration engine sees it: the stored
`planning.version` and the files under the planning root. -/
structure MigProject where
  version : Str
  files : List (Str × Str)
deriving DecidableEq, Repr

/-- The migration loop of `cmd_upgrade` (lines 162–180): each scripted
entry's module is looked up (`scripts v = none` models a missing script:
a warning, then the loop continues); a script returning `False` aborts
with exit code 1; the loop never writes the target version itself. -/
def applyEntries (scripts : Str → Option (MigProject → MigProject × Bool)) :
    List MEntry → MigProject → MigProject × Nat
  | [], st => (st, 0)
  | e :: rest, st =>
    if e.hasScript then
      match scripts e.version with
      | some f =>
        let p := f st
        if p.2 then applyEntries scripts rest p.1 else (p.1, 1)
      | none => applyEntries scripts rest st
    else applyEntries scripts rest st

/-- `cmd_upgrade` (`vibe-doc.py` lines 117–180, non-dry-run): compare the
stored version with the target (Python string comparison), select the
manifest entries with `current < version <= target` in manifest order,
and apply them. -/
def cmdUpgrade (scripts : Str → Option (MigProject → MigProject × Bool))
    (manifest : Manifest) (toV : Option Str) (st : MigProject) : MigProject × Nat :=
  let current := st.version
  let target := toV.getD manifest.current
  if !strLt current target then (st, 0)
  else
    applyEntries scripts
      (manifest.versions.filter (fun e => strLt current e.version && !strLt target e.version)) st

/-! ## Generic list and string lemmas -/

theorem containsSub_iff {pat s : Str} :
    containsSub pat s = true ↔ ∃ x, x <:+ s ∧ pat <+: x := by
  induction s with
  | nil =>
    simp only [containsSub, List.isPrefixOf_iff_prefix]
    constructor
    · intro h; exact ⟨[], List.suffix_refl _, h⟩
    · rintro ⟨x, hx, hp⟩
      rw [List.suffix_nil.mp hx] at hp
      exact hp
  | cons c cs ih =>
    simp only [containsSub, Bool.or_eq_true, ih, List.isPrefixOf_iff_prefix]
    constructor
    · rintro (h | ⟨x, hx, hp⟩)
      · exact ⟨c :: cs, List.suffix_refl _, h⟩
      · exact ⟨x, hx.trans (List.suffix_cons c cs), hp⟩
    · rintro ⟨x, hx, hp⟩
      rcases List.suffix_cons_iff.mp hx with h | h
      · subst h; exact Or.inl hp
      · exact Or.inr ⟨x, h, hp⟩

theorem not_prefix_of_not_containsSub {pat s x : Str}
    (h : containsSub pat s = false) (hx : x <:+ s) : ¬ pat <+: x := by
  intro hp
  have : containsSub pat s = true := containsSub_iff.mpr ⟨x, hx, hp⟩
  simp [this] at h

theorem containsSub_of_infix {pat s : Str} (h : pat <:+: s) : containsSub pat s = true := by
  obtain ⟨a, b, hab⟩ := h
  refine containsSub_iff.mpr ⟨pat ++ b, ?_, List.prefix_append _ _⟩
  exact ⟨a, by rw [← hab, List.append_assoc]⟩

/-- A prefix of `x ++ Y` is either contained in `x` or splits at the
border. -/
theorem prefix_append_cases {pat x Y : Str} (hp : pat <+: x ++ Y) :
    pat <+: x ∨ (x.length < pat.length ∧ x = pat.take x.length ∧ pat.drop x.length <+: Y) := by
  rcases le_or_lt pat.length x.length with hle | hlt
  · left
    have h1 := List.prefix_iff_eq_take.mp hp
    rw [List.take_append_eq_append_take, Nat.sub_eq_zero_of_le hle, List.take_zero,
      List.append_nil] at h1
    rw [h1]
    exact List.take_prefix _ _
  · right
    have h1 := List.prefix_iff_eq_take.mp hp
    refine ⟨hlt, ?_, ?_⟩
    · rw [h1, List.take_take, Nat.min_eq_left hlt.le, List.take_left]
    · rw [h1, List.drop_take, List.drop_left]
      exact List.take_prefix _ _

theorem prefix_of_prefix_append {p a b : Str} (hp : p <+: a ++ b)
    (hl : p.length ≤ a.length) : p <+: a := by
  rcases prefix_append_cases hp with h | ⟨h, -⟩
  · exact h
  · omega

theorem splitSep_ne_nil (sep : Char) (s : Str) : splitSep sep s ≠ [] := by
  induction s with
  | nil => simp [splitSep]
  | cons c cs ih =>
    simp only [splitSep]
    rcases h : splitSep sep cs with - | ⟨l, ls⟩
    · simp
    · by_cases hc : c = sep <;> simp [hc]

theorem splitSep_append (sep : Char) (a b : Str) :
    splitSep sep (a ++ sep :: b) = splitSep sep a ++ splitSep sep b := by
  induction a with
  | nil =>
    simp only [List.nil_append, splitSep]
    rcases h : splitSep sep b with - | ⟨l, ls⟩
    · exact absurd h (splitSep_ne_nil sep b)
    · simp [splitSep]
  | cons c cs ih =>
    rcases h : splitSep sep cs with _ | ⟨l, ls⟩
    · exact absurd h (splitSep_ne_nil sep cs)
    · rcases hb : splitSep sep b with _ | ⟨m, ms⟩
      · exact absurd hb (splitSep_ne_nil sep b)
      · have key : splitSep sep (cs ++ sep :: b) = l :: (ls ++ m :: ms) := by
          rw [ih, h, hb]; rfl
        simp only [List.cons_append, splitSep, key, h, hb]
        by_cases hc : c = sep <;> simp only [List.append_eq] <;> rw [key] <;> simp [hc]

theorem splitSep_of_not_mem {sep : Char} {s : Str} (h : sep ∉ s) :
    splitSep sep s = [s] := by
  induction s with
  | nil => simp [splitSep]
  | cons c cs ih =>
    simp only [List.mem_cons, not_or] at h
    simp [splitSep, ih h.2, Ne.symm h.1, h.1]

theorem splitSep_joinSep {sep : Char} {ls : List Str} (hne : ls ≠ [])
    (h : ∀ l ∈ ls, sep ∉ l) : splitSep sep (joinSep sep ls) = ls := by
  induction ls with
  | nil => simp at hne
  | cons l ls ih =>
    rcases ls with _ | ⟨m, ms⟩
    · have h1 : joinSep sep [l] = l := rfl
      rw [h1]
      exact splitSep_of_not_mem (h l (by simp))
    · have h1 : joinSep sep (l :: m :: ms) = l ++ sep :: joinSep sep (m :: ms) := rfl
      rw [h1, splitSep_append, splitSep_of_not_mem (h l (by simp)), ih (by simp)
        (fun x hx => h x (List.mem_cons_of_mem l hx))]
      rfl

/-- `splitLines` both distributes at a `'\n'` and fixes newline-free
texts. -/
theorem splitLines_append (a b : Str) :
    splitLines (a ++ '\n' :: b) = splitLines a ++ splitLines b :=
  splitSep_append '\n' a b

theorem splitLines_of_no_nl {s : Str} (h : '\n' ∉ s) : splitLines s = [s] :=
  splitSep_of_not_mem h

/-! Facts about `stripStr`, `rstrip` and friends. -/

theorem dropWhile_eq_self_of_head {p : Char → Bool} {s : Str}
    (h : ∀ c, s.head? = some c → ¬ p c) : s.dropWhile p = s := by
  rcases s with - | ⟨c, cs⟩
  · rfl
  · simp only [List.dropWhile_cons]
    have := h c rfl
    simp [this]

theorem rstrip_append_of_clean {X b : Str} (hb : b ≠ [])
    (hclean : rstrip b = b) : rstrip (X ++ b ++ ['\n']) = X ++ b := by
  have hrev : b.reverse.dropWhile isSpacePy = b.reverse := by
    have h2 := congrArg List.reverse hclean
    rwa [rstrip, List.reverse_reverse] at h2
  have hbr : b.reverse ≠ [] := by simpa using hb
  rw [rstrip]
  rw [show (X ++ b ++ ['\n']).reverse = '\n' :: (b.reverse ++ X.reverse) by simp]
  rw [List.dropWhile_cons, if_pos (by decide : isSpacePy '\n' = true)]
  rw [List.dropWhile_append, hrev]
  rw [if_neg (by simpa [List.isEmpty_iff] using hbr)]
  rw [show b.reverse ++ X.reverse = (X ++ b).reverse by simp]
  exact List.reverse_reverse _

theorem stripStr_cons_space (s : Str) : stripStr (' ' :: s) = stripStr s := by
  simp [stripStr, List.dropWhile_cons, isSpacePy]

theorem stripStr_of_clean_ends {s : Str} {c d : Char} (hh : s.head? = some c)
    (hc : ¬ isSpacePy c) (hl : s.getLast? = some d) (hd : ¬ isSpacePy d) :
    stripStr s = s := by
  have h1 : s.dropWhile isSpacePy = s :=
    dropWhile_eq_self_of_head (fun e he hp => by rw [hh] at he; cases he; exact hc hp)
  have h2 : s.reverse.dropWhile isSpacePy = s.reverse :=
    dropWhile_eq_self_of_head (fun e he hp => by
      rw [List.head?_reverse, hl] at he; cases he; exact hd hp)
  rw [stripStr, h1, h2, List.reverse_reverse]

/-- The first occurrence of `pat` in `X ++ pat ++ Y` is at `|X|`, provided
no occurrence starts inside `X`. -/
theorem splitOnFirst_boundary {pat X Y : Str} (hpat : pat ≠ [])
    (h : ∀ x, x <:+ X → x ≠ [] → ¬ pat <+: (x ++ pat ++ Y)) :
    splitOnFirst pat (X ++ pat ++ Y) = some (X, Y) := by
  induction X with
  | nil =>
    rcases pat with _ | ⟨p, ps⟩
    · exact absurd rfl hpat
    · rw [show ([] : Str) ++ (p :: ps) ++ Y = p :: (ps ++ Y) from rfl]
      simp only [splitOnFirst]
      rw [if_pos (show (p :: ps).isPrefixOf (p :: (ps ++ Y)) = true from
        List.isPrefixOf_iff_prefix.mpr (List.prefix_append _ _))]
      rw [show p :: (ps ++ Y) = (p :: ps) ++ Y from rfl, List.drop_left]
  | cons c cs ih =>
    have hstep : splitOnFirst pat (cs ++ pat ++ Y) = some (cs, Y) :=
      ih (fun x hx hne => h x (hx.trans (List.suffix_cons c cs)) hne)
    have h0 : ¬ pat <+: c :: (cs ++ pat ++ Y) := by
      have h1 := h (c :: cs) (List.suffix_refl _) (by simp)
      intro hp
      exact h1 (by simpa using hp)
    rw [show (c :: cs) ++ pat ++ Y = c :: (cs ++ pat ++ Y) from rfl]
    rcases pat with _ | ⟨p, ps⟩
    · exact absurd rfl hpat
    · simp only [splitOnFirst]
      rw [if_neg (fun hb => h0 (List.isPrefixOf_iff_prefix.mp hb))]
      rw [hstep]

/-! Facts about folding `Nat.max`. -/

theorem le_foldl_max (l : List Nat) (a : Nat) : a ≤ l.foldl Nat.max a := by
  induction l generalizing a with
  | nil => simp
  | cons x xs ih => exact le_trans (Nat.le_max_left a x) (ih (Nat.max a x))

theorem mem_le_foldl_max {l : List Nat} {x : Nat} (h : x ∈ l) (a : Nat) :
    x ≤ l.foldl Nat.max a := by
  induction l generalizing a with
  | nil => simp at h
  | cons y ys ih =>
    rcases List.mem_cons.mp h with rfl | h2
    · exact le_trans (Nat.le_max_right a x) (le_foldl_max ys _)
    · exact ih h2 _

theorem foldl_max_le {l : List Nat} {b : Nat} (h : ∀ y ∈ l, y ≤ b) {a : Nat}
    (ha : a ≤ b) : l.foldl Nat.max a ≤ b := by
  induction l generalizing a with
  | nil => simpa
  | cons x xs ih =>
    exact ih (fun y hy => h y (List.mem_cons_of_mem x hy))
      (Nat.max_le.mpr ⟨ha, h x (by simp)⟩)

theorem foldl_max_eq_of_mem {l : List Nat} {x : Nat} (hx : x ∈ l)
    (h : ∀ y ∈ l, y ≤ x) : l.foldl Nat.max 0 = x :=
  Nat.le_antisymm (foldl_max_le h (Nat.zero_le x)) (mem_le_foldl_max hx 0)

theorem foldl_max_eq_zero {l : List Nat} (h : l = []) : l.foldl Nat.max 0 = 0 := by
  subst h; rfl

theorem isPrefixOf_cons_false {a b : Char} {as bs : Str} (hne : a ≠ b) :
    (a :: as).isPrefixOf (b :: bs) = false := by
  by_cases hp : (a :: as).isPrefixOf (b :: bs) = true
  · have h1 := List.isPrefixOf_iff_prefix.mp hp
    rw [List.cons_prefix_cons] at h1
    exact absurd h1.1 hne
  · exact Bool.eq_false_iff.mpr hp

/-! ## Claim theorems -/

/-- C10: document-id resolution is case-insensitive in every lifecycle
operation: both `parse_doc_id` variants (the four-type one shared by
`update-status.py`/`append.py`/`relate.py`/`edit.py`/`supersede.py`, and
`archive.py`'s three-type one) upper-case the id before pattern matching,
so ids differing only in letter case resolve to the same
`(type, number)` and hence the same document. -/
theorem C10_id_resolution_case_insensitive (s t : Str) (h : upperStr s = upperStr t) :
    parseDocId s = parseDocId t ∧ parseDocIdArchive s = parseDocIdArchive t := by
  constructor
  · simp only [parseDocId, h]
  · simp only [parseDocIdArchive, h]

/-- Witness for C10 at `adr-001` / `ADR-001`. -/
theorem C10_witness :
    parseDocId (lit "adr-001") = parseDocId (lit "ADR-001") ∧
    parseDocIdArchive (lit "adr-001") = parseDocIdArchive (lit "ADR-001") :=
  C10_id_resolution_case_insensitive (lit "adr-001") (lit "ADR-001") (by decide)

/-- C9: `archive.py` recognizes only the adr/fdp/ap id patterns; every
well-formed report id (`RPT-<digits>`, in any letter case) fails with the
invalid-id error, in every project state — even when the report document
exists. -/
theorem C9_reports_never_archivable (s ds today : Str) (st : PState)
    (h : upperStr s = lit "RPT-" ++ ds) (_hne : ds ≠ []) (_hdig : allDigits ds = true) :
    parseDocIdArchive s = .error .invalidId ∧
    archiveDocument today s st = (.error .invalidId, st) := by
  have hu : upperStr s = 'R' :: ('P' :: 'T' :: '-' :: ds) := h
  have hA : matchIdPat (lit "ADR-") (upperStr s) = none := by
    unfold matchIdPat
    rw [hu, show lit "ADR-" = 'A' :: 'D' :: 'R' :: '-' :: ([] : Str) from rfl,
      isPrefixOf_cons_false (by decide)]
    simp
  have hF : matchIdPat (lit "FDP-") (upperStr s) = none := by
    unfold matchIdPat
    rw [hu, show lit "FDP-" = 'F' :: 'D' :: 'P' :: '-' :: ([] : Str) from rfl,
      isPrefixOf_cons_false (by decide)]
    simp
  have hP : matchIdPat (lit "AP-") (upperStr s) = none := by
    unfold matchIdPat
    rw [hu, show lit "AP-" = 'A' :: 'P' :: '-' :: ([] : Str) from rfl,
      isPrefixOf_cons_false (by decide)]
    simp
  have hparse : parseDocIdArchive s = .error .invalidId := by
    simp only [parseDocIdArchive, hA, hF, hP]
  exact ⟨hparse, by simp only [archiveDocument, hparse]⟩

/-- Witness for C9: a lower-case report id against a state where RPT-001
exists. -/
theorem C9_witness :
    parseDocIdArchive (lit "rpt-001") = .error .invalidId ∧
    archiveDocument (lit "2026-10-12") (lit "rpt-001")
      ⟨⟨[], []⟩, ⟨[], []⟩, ⟨[], []⟩,
        ⟨[(lit "RPT-001-q4.md", lit "# R\n\n## Status\n\nDraft\n")], []⟩⟩ =
      (.error .invalidId,
        ⟨⟨[], []⟩, ⟨[], []⟩, ⟨[], []⟩,
          ⟨[(lit "RPT-001-q4.md", lit "# R\n\n## Status\n\nDraft\n")], []⟩⟩) :=
  C9_reports_never_archivable (lit "rpt-001") (lit "001") (lit "2026-10-12") _
    (by decide) (by decide) (by decide)

/-- C7: the PyYAML-branch parser never propagates a parse failure: with
the external `yaml.safe_load` abstracted as an oracle, absent delimiters
yield `({}, content)` with the full original content as body, and a
delimited block whose YAML load raises yields a well-typed empty mapping
with the original, undivided content as body (the malformed block is not
stripped).  The embedded parser is a total function, so it never raises. -/
theorem C7_parse_fail_open (oracle : Str → YamlRes) (content : Str) :
    (fmSplit content = none → parseFmYaml oracle content = ([], content)) ∧
    (∀ g body, fmSplit content = some (g, body) → oracle g = .raises →
      parseFmYaml oracle content = ([], content)) := by
  constructor
  · intro h
    simp [parseFmYaml, h]
  · intro g body hs ho
    simp [parseFmYaml, hs, ho]

/-- Witness for C7: no-delimiter content, and a malformed delimited
block. -/
theorem C7_witness :
    parseFmYaml (fun _ => YamlRes.raises) (lit "plain body, no frontmatter") =
      ([], lit "plain body, no frontmatter") ∧
    parseFmYaml (fun _ => YamlRes.raises) (lit "---\nkey: [unclosed\n---\nBODY") =
      ([], lit "---\nkey: [unclosed\n---\nBODY") :=
  ⟨(C7_parse_fail_open _ _).1 (by decide),
   (C7_parse_fail_open _ _).2 (lit "key: [unclosed") (lit "BODY") (by decide) rfl⟩

/-- C6 counterexample: the empty metadata mapping has no exotic value
types, yet `parse(render({}))` is `({}, "---\n---\n")`, not `({}, "")` —
the fallback renderer emits `---\n---\n`, which `FRONTMATTER_PATTERN`
does not match (the non-greedy group needs a newline before the closing
delimiter), so the parse falls open and returns the whole text as the
body. -/
theorem C6_counterexample :
    renderFm [] = lit "---\n---\n" ∧
    parseFm (renderFm []) = ([], lit "---\n---\n") ∧
    parseFm (renderFm []) ≠ (([] : Fm), ([] : Str)) :=
  ⟨by decide, by decide, by decide⟩

/-- C2 counterexample: an upgrade over a manifest whose pending entry is
metadata-only (`migration` falsy) reports success (exit code 0) without
touching the project state, so the stored version stays `0.1.0` although
the target `0.2.1` was reached "successfully" — the upgrade command never
persists the new version itself (persistence only happens inside scripted
migrations). -/
theorem C2_counterexample :
    cmdUpgrade (fun _ => none) ⟨lit "0.2.1", [⟨lit "0.2.0", false⟩]⟩ none
        ⟨lit "0.1.0", []⟩ =
      (⟨lit "0.1.0", []⟩, 0) ∧
    (MigProject.mk (lit "0.1.0") []).version ≠ lit "0.2.1" :=
  ⟨by decide, by decide⟩

/-- C2 (amended): the migration loop aborts on the first script that
reports failure, before any later manifest entry is looked at — the
result does not depend on the entries after the failing one — and an
upgrade whose manifest entries all lack scripts succeeds with the project
state (hence the stored version) unchanged. -/
theorem C2_upgrade_abort_and_no_self_persist
    (scripts : Str → Option (MigProject → MigProject × Bool)) :
    (∀ pre (e : MEntry) post st st1 st2 f,
      applyEntries scripts pre st = (st1, 0) → e.hasScript = true →
      scripts e.version = some f → f st1 = (st2, false) →
      applyEntries scripts (pre ++ e :: post) st = (st2, 1)) ∧
    (∀ (manifest : Manifest) toV st, (∀ e ∈ manifest.versions, e.hasScript = false) →
      cmdUpgrade scripts manifest toV st = (st, 0)) := by
  have hnil : ∀ l st, (∀ e ∈ l, e.hasScript = false) → applyEntries scripts l st = (st, 0) := by
    intro l
    induction l with
    | nil => intro st _; rfl
    | cons e rest ih =>
      intro st hall
      have he : e.hasScript = false := hall e (by simp)
      simp only [applyEntries, he, Bool.false_eq_true, if_false]
      exact ih st (fun x hx => hall x (List.mem_cons_of_mem e hx))
  constructor
  · intro pre
    induction pre with
    | nil =>
      intro e post st st1 st2 f h0 he hs hf
      have h1 : st = st1 := by
        simpa [applyEntries] using congrArg Prod.fst h0
      subst h1
      simp [List.nil_append, applyEntries, he, if_true, hs, hf]
    | cons a pre ih =>
      intro e post st st1 st2 f h0 he hs hf
      by_cases ha : a.hasScript = true
      · rcases hsa : scripts a.version with _ | g
        · simp only [applyEntries, ha, if_true, hsa] at h0
          simp only [List.cons_append, applyEntries, ha, if_true, hsa]
          exact ih e post st st1 st2 f h0 he hs hf
        · simp only [applyEntries, ha, if_true, hsa] at h0
          rcases hg : g st with ⟨st', ok⟩
          rw [hg] at h0
          simp only [List.cons_append, applyEntries, ha, if_true, hsa, hg]
          rcases ok with _ | _
          · simp only [Bool.false_eq_true, if_false] at h0 ⊢
            exact absurd (congrArg Prod.snd h0) (by simp)
          · simp only [if_true] at h0 ⊢
            exact ih e post st' st1 st2 f h0 he hs hf
      · have ha' : a.hasScript = false := by simpa using ha
        simp only [applyEntries, ha', Bool.false_eq_true, if_false] at h0
        simp only [List.cons_append, applyEntries, ha', Bool.false_eq_true, if_false]
        exact ih e post st st1 st2 f h0 he hs hf
  · intro manifest toV st hall
    unfold cmdUpgrade
    by_cases hlt : strLt st.version (toV.getD manifest.current) = true
    · simp only [hlt, Bool.not_true, Bool.false_eq_true, if_false]
      exact hnil _ st (fun e he => hall e (List.mem_filter.mp he).1)
    · have : strLt st.version (toV.getD manifest.current) = false := by simpa using hlt
      simp [this]

/-- Witness for C2: a failing scripted entry aborts with exit 1, and a
manifest of metadata-only entries upgrades with exit 0 and unchanged
state. -/
theorem C2_witness :
    applyEntries (fun _ => some (fun st => (st, false)))
        ([] ++ ⟨lit "0.2.1", true⟩ :: []) ⟨lit "0.1.0", []⟩ =
      (⟨lit "0.1.0", []⟩, 1) ∧
    cmdUpgrade (fun _ => some (fun st => (st, false)))
        ⟨lit "0.2.0", [⟨lit "0.2.0", false⟩]⟩ none ⟨lit "0.1.0", []⟩ =
      (⟨lit "0.1.0", []⟩, 0) :=
  ⟨(C2_upgrade_abort_and_no_self_persist _).1 [] ⟨lit "0.2.1", true⟩ [] _ _ _ _
      rfl rfl rfl rfl,
   (C2_upgrade_abort_and_no_self_persist _).2 ⟨lit "0.2.0", [⟨lit "0.2.0", false⟩]⟩
      none ⟨lit "0.1.0", []⟩ (by decide)⟩

/-- C1 counterexample: for a document whose only file sits under
`archive/`, both the archive operation and the status update fail with
the not-found error, not with the already-archived one — the
`find_document` of `archive.py` and of `update-status.py` scan only the
active directory, so the `AlreadyArchived` check never sees an archived
file. -/
theorem C1_counterexample :
    (let st : PState := ⟨⟨[], [(lit "001-use-x.md", lit "# D\n\n## Status\n\nArchived\n")]⟩,
        ⟨[], []⟩, ⟨[], []⟩, ⟨[], []⟩⟩
     archiveDocument (lit "2026-10-12") (lit "ADR-001") st = (.error .notFound, st) ∧
     updateDocumentStatus (lit "2026-10-12") (lit "ADR-001") (lit "accepted") st =
       (.error .notFound, st) ∧
     Err.notFound ≠ Err.alreadyArchived) := by
  decide

/-- C1 (amended): for every document that resides only under `archive/`
(no active-directory file matches its number), the archive operation and
the update-status operation (given any status in the type's valid set)
both fail — with `NotFound`, since their locators search only the active
directory — and leave the state unchanged, so an archived document is
indeed never double-moved and never stamped a second time. -/
theorem C1_archived_docs_fail_closed (today docId s : Str) (st : PState)
    (ty : DType) (n : Nat)
    (hp : parseDocId docId = .ok (ty, n))
    (hpa : parseDocIdArchive docId = .ok (ty, n))
    (hactive : findActive (dirOf st ty) (pfxOf ty) n = none)
    (_harchived : (findIn (dirOf st ty).archived (pfxOf ty) n).isSome = true)
    (hvalid : validStatusQ ty s = true) :
    archiveDocument today docId st = (.error .notFound, st) ∧
    updateDocumentStatus today docId s st = (.error .notFound, st) := by
  constructor
  · simp only [archiveDocument, hpa, archiveCore, hactive]
  · simp only [updateDocumentStatus, hp, hvalid, Bool.not_true, Bool.false_eq_true,
      if_false, hactive]

/-- Witness for C1 (amended) at an archived ADR-001. -/
theorem C1_witness :
    archiveDocument (lit "2026-10-12") (lit "adr-001")
        ⟨⟨[], [(lit "001-use-x.md", lit "# D\n\n## Status\n\nArchived\n")]⟩,
          ⟨[], []⟩, ⟨[], []⟩, ⟨[], []⟩⟩ =
      (.error .notFound,
        ⟨⟨[], [(lit "001-use-x.md", lit "# D\n\n## Status\n\nArchived\n")]⟩,
          ⟨[], []⟩, ⟨[], []⟩, ⟨[], []⟩⟩) :=
  (C1_archived_docs_fail_closed (lit "2026-10-12") (lit "adr-001") (lit "accepted") _
    .adr 1 (by decide) (by decide) (by decide) (by decide) (by decide)).1

/-- C3 counterexample: archiving with a same-named file already at the
archive destination fails `AlreadyExists` only after the source document
has been rewritten (status forced to Archived and the Archived marker
stamped), so the state is modified although the operation reports an
error — archive's destination-collision path is not single-write
atomic. -/
theorem C3_counterexample :
    (let st : PState := ⟨⟨[(lit "001-use-x.md",
          lit "# T\n\n## Status\n\nProposed\n\n## Context\n\nx\n")],
        [(lit "001-use-x.md", lit "old")]⟩, ⟨[], []⟩, ⟨[], []⟩, ⟨[], []⟩⟩
     let r := archiveDocument (lit "2026-10-12") (lit "ADR-001") st
     r.1 = .error .alreadyExists ∧ r.2 ≠ st) := by
  decide

/-- C3 (amended): errors raised before the first write leave the state
unchanged: the status update is unchanged on every error; the archive
operation is unchanged on every error except the destination-collision
`AlreadyExists` (raised after the source rewrite); and a single-target
non-bidirectional relate is unchanged on every error.  (The archive
`AlreadyExists` path and relate's later-target failures join the
supersede two-write gap as exceptions.) -/
theorem C3_unchanged_on_early_error :
    (∀ today docId s st e r,
      updateDocumentStatus today docId s st = (.error e, r) → r = st) ∧
    (∀ today docId st e r, archiveDocument today docId st = (.error e, r) →
      e ≠ .alreadyExists → r = st) ∧
    (∀ today docId rid st e r,
      relateDocuments today docId [rid] false st = (.error e, r) → r = st) := by
  refine ⟨?_, ?_, ?_⟩
  · intro today docId s st e r h
    unfold updateDocumentStatus at h
    repeat' split at h
    all_goals simp_all
  · intro today docId st e r h hne
    unfold archiveDocument archiveCore at h
    repeat' split at h
    all_goals simp_all [ite_eq_iff]
  · intro today docId rid st e r h
    unfold relateDocuments relateGo at h
    repeat' split at h
    all_goals try simp only [relateGo] at h
    all_goals simp_all

/-- Witness for C3 (amended): each conjunct applied at a concrete early
error (missing document / missing relate target). -/
theorem C3_witness :
    ((updateDocumentStatus (lit "2026-10-12") (lit "ADR-001") (lit "accepted")
        ⟨⟨[], []⟩, ⟨[], []⟩, ⟨[], []⟩, ⟨[], []⟩⟩).2 =
      ⟨⟨[], []⟩, ⟨[], []⟩, ⟨[], []⟩, ⟨[], []⟩⟩) ∧
    ((archiveDocument (lit "2026-10-12") (lit "ADR-001")
        ⟨⟨[], []⟩, ⟨[], []⟩, ⟨[], []⟩, ⟨[], []⟩⟩).2 =
      ⟨⟨[], []⟩, ⟨[], []⟩, ⟨[], []⟩, ⟨[], []⟩⟩) ∧
    ((relateDocuments (lit "2026-10-12") (lit "ADR-001") [lit "FDP-009"] false
        ⟨⟨[(lit "001-a.md", lit "---\nid: ADR-001\n---\n\nbody\n")], []⟩,
          ⟨[], []⟩, ⟨[], []⟩, ⟨[], []⟩⟩).2 =
      ⟨⟨[(lit "001-a.md", lit "---\nid: ADR-001\n---\n\nbody\n")], []⟩,
        ⟨[], []⟩, ⟨[], []⟩, ⟨[], []⟩⟩) :=
  ⟨C3_unchanged_on_early_error.1 (lit "2026-10-12") (lit "ADR-001") (lit "accepted")
      _ .notFound _ (by decide),
   C3_unchanged_on_early_error.2.1 (lit "2026-10-12") (lit "ADR-001") _ .notFound _
      (by decide) (by decide),
   C3_unchanged_on_early_error.2.2 (lit "2026-10-12") (lit "ADR-001") (lit "FDP-009")
      _ .notFound _ (by decide)⟩

/-! ## Round-trip of the fallback frontmatter codec

"Without exotic value types" made precise: keys are nonempty, already
stripped, and contain neither `:` nor a newline; a string value is
nonempty, stripped, newline-free, not a null token, and not
bracket/quote-wrapped; list items are nonempty, stripped, and free of
commas, newlines and surrounding quotes — exactly the values the scripts
themselves write (ids, statuses, ISO dates, id lists). -/

def cleanKeyB (k : Str) : Bool :=
  !k.isEmpty && k == stripStr k && !k.contains ':' && !k.contains '\n'

def cleanItemB (x : Str) : Bool :=
  !x.isEmpty && x == stripStr x && !x.contains ',' && !x.contains '\n' &&
  !(x.head? == some '"') && !(x.head? == some '\'') &&
  !(x.getLast? == some '"') && !(x.getLast? == some '\'')

def cleanValB : Value → Bool
  | .vnull => true
  | .vstr s => !s.isEmpty && s == stripStr s && !s.contains '\n' &&
      !(lowerStr s == lit "null") && !(lowerStr s == lit "~") &&
      !(s.head? == some '[' && s.getLast? == some ']') &&
      !(s.head? == some '"' && s.getLast? == some '"') &&
      !(s.head? == some '\'' && s.getLast? == some '\'')
  | .vlist xs => xs.all cleanItemB

def keysDistinct : Fm → Bool
  | [] => true
  | e :: rest => !(rest.map (·.1)).contains e.1 && keysDistinct rest

def cleanFmB (m : Fm) : Bool :=
  keysDistinct m && m.all (fun e => cleanKeyB e.1 && cleanValB e.2)

/-- The value part of a rendered `key: value` line. -/
def renderValStr : Value → Str
  | .vnull => lit "null"
  | .vlist [] => lit "[]"
  | .vlist xs => '[' :: (joinWith (lit ", ") xs ++ [']'])
  | .vstr s => s

theorem renderLine_eq (k : Str) (v : Value) :
    renderLine (k, v) = k ++ lit ": " ++ renderValStr v := by
  cases v with
  | vnull =>
    simp [renderLine, renderValStr, show lit ": null" = lit ": " ++ lit "null" from rfl]
  | vstr s => simp [renderLine, renderValStr]
  | vlist xs =>
    cases xs with
    | nil =>
      simp [renderLine, renderValStr, show lit ": []" = lit ": " ++ lit "[]" from rfl]
    | cons x xs =>
      simp [renderLine, renderValStr, show lit ": [" = lit ": " ++ ['['] from rfl]

theorem mem_joinWith {c : Char} {sep : Str} {ls : List Str}
    (h : c ∈ joinWith sep ls) : c ∈ sep ∨ ∃ l ∈ ls, c ∈ l := by
  induction ls with
  | nil => simp [joinWith] at h
  | cons l ls ih =>
    rcases ls with _ | ⟨m, ms⟩
    · exact Or.inr ⟨l, by simp, h⟩
    · rw [show joinWith sep (l :: m :: ms) = l ++ sep ++ joinWith sep (m :: ms) from rfl] at h
      simp only [List.mem_append] at h
      rcases h with (h | h) | h
      · exact Or.inr ⟨l, by simp, h⟩
      · exact Or.inl h
      · rcases ih h with h2 | ⟨l', hl', hc⟩
        · exact Or.inl h2
        · exact Or.inr ⟨l', List.mem_cons_of_mem l hl', hc⟩

theorem takeWhile_append_all {p : Char → Bool} {l1 : Str} (l2 : Str)
    (h : ∀ c ∈ l1, p c = true) : (l1 ++ l2).takeWhile p = l1 ++ l2.takeWhile p := by
  induction l1 with
  | nil => simp
  | cons x xs ih =>
    simp only [List.cons_append, List.takeWhile_cons, h x (by simp)]
    rw [ih (fun c hc => h c (List.mem_cons_of_mem x hc))]
    simp

/-- Unpack the string-value cleanliness flags. -/
theorem cleanStr_parts {s : Str} (h : cleanValB (.vstr s) = true) :
    s ≠ [] ∧ stripStr s = s ∧ '\n' ∉ s ∧
    lowerStr s ≠ lit "null" ∧ lowerStr s ≠ lit "~" ∧
    ¬(s.head? = some '[' ∧ s.getLast? = some ']') ∧
    ¬(s.head? = some '"' ∧ s.getLast? = some '"') ∧
    ¬(s.head? = some '\'' ∧ s.getLast? = some '\'') := by
  simp only [cleanValB, Bool.and_eq_true] at h
  obtain ⟨⟨⟨⟨⟨⟨⟨h1, h2⟩, h3⟩, h4⟩, h5⟩, h6⟩, h7⟩, h8⟩ := h
  refine ⟨by simpa [List.isEmpty_iff] using h1, (beq_iff_eq.mp h2).symm,
    by simpa using h3, by simpa using h4, by simpa using h5, ?_, ?_, ?_⟩
  · intro hc
    simp [hc.1, hc.2] at h6
  · intro hc
    simp [hc.1, hc.2] at h7
  · intro hc
    simp [hc.1, hc.2] at h8

/-- Unpack the list-item cleanliness flags. -/
theorem cleanItem_parts {x : Str} (h : cleanItemB x = true) :
    x ≠ [] ∧ stripStr x = x ∧ ',' ∉ x ∧ '\n' ∉ x ∧
    x.head? ≠ some '"' ∧ x.head? ≠ some '\'' ∧
    x.getLast? ≠ some '"' ∧ x.getLast? ≠ some '\'' := by
  simp only [cleanItemB, Bool.and_eq_true] at h
  obtain ⟨⟨⟨⟨⟨⟨⟨h1, h2⟩, h3⟩, h4⟩, h5⟩, h6⟩, h7⟩, h8⟩ := h
  exact ⟨by simpa [List.isEmpty_iff] using h1, (beq_iff_eq.mp h2).symm,
    by simpa using h3, by simpa using h4, by simpa using h5, by simpa using h6,
    by simpa using h7, by simpa using h8⟩

theorem nl_not_mem_renderValStr {v : Value} (h : cleanValB v = true) :
    '\n' ∉ renderValStr v := by
  cases v with
  | vnull => decide
  | vstr s => exact (cleanStr_parts h).2.2.1
  | vlist xs =>
    cases xs with
    | nil => decide
    | cons x xs =>
      intro hmem
      simp only [renderValStr, List.mem_cons] at hmem
      rcases hmem with h1 | h1
      · exact absurd h1 (by decide)
      · rcases List.mem_append.mp h1 with h2 | h2
        · rcases mem_joinWith h2 with h3 | ⟨l, hl, hc⟩
          · exact absurd h3 (by decide)
          · simp only [cleanValB, List.all_eq_true] at h
            exact absurd hc (cleanItem_parts (h l hl)).2.2.2.1
        · exact absurd h2 (by decide)

theorem stripStr_renderValStr {v : Value} (h : cleanValB v = true) :
    stripStr (renderValStr v) = renderValStr v := by
  cases v with
  | vnull => decide
  | vstr s => exact (cleanStr_parts h).2.1
  | vlist xs =>
    cases xs with
    | nil => decide
    | cons x xs =>
      refine stripStr_of_clean_ends (c := '[') (d := ']') rfl (by decide) ?_ (by decide)
      rw [show renderValStr (Value.vlist (x :: xs)) =
        ('[' :: joinWith (lit ", ") (x :: xs)) ++ [']'] from by simp [renderValStr]]
      exact List.getLast?_concat _

/-- Splitting the `', '.join` of comma-free items back on `','` yields
the first item and the rest with a leading space. -/
theorem splitSep_comma_joinWith {x : Str} {xs : List Str}
    (h : ∀ y ∈ x :: xs, ',' ∉ y) :
    splitSep ',' (joinWith (lit ", ") (x :: xs)) = x :: xs.map (' ' :: ·) := by
  induction xs generalizing x with
  | nil =>
    rw [show joinWith (lit ", ") [x] = x from rfl]
    simp [splitSep_of_not_mem (h x (by simp))]
  | cons y ys ih =>
    rw [show joinWith (lit ", ") (x :: y :: ys) =
      x ++ ',' :: (' ' :: joinWith (lit ", ") (y :: ys)) from by
        rw [show joinWith (lit ", ") (x :: y :: ys) =
          x ++ lit ", " ++ joinWith (lit ", ") (y :: ys) from rfl, List.append_assoc]
        rfl]
    rw [splitSep_append, splitSep_of_not_mem (h x (by simp))]
    have hrest := ih (x := y) (fun z hz => h z (List.mem_cons_of_mem x hz))
    rw [show splitSep ',' (' ' :: joinWith (lit ", ") (y :: ys)) =
      match splitSep ',' (joinWith (lit ", ") (y :: ys)) with
      | [] => [[' ']]
      | l :: ls => (' ' :: l) :: ls from by simp [splitSep]]
    rw [hrest]
    simp

/-- Strip the surrounding-quotes pass of the list-item parser: a no-op on
clean items. -/
theorem stripQuotes_clean {x : Str} (hh : ∀ c, x.head? = some c → ¬(c = '"' || c = '\''))
    (hl : ∀ c, x.getLast? = some c → ¬(c = '"' || c = '\'')) :
    ((x.dropWhile (fun c => c = '"' || c = '\'')).reverse.dropWhile
      (fun c => c = '"' || c = '\'')).reverse = x := by
  rw [dropWhile_eq_self_of_head hh]
  rw [dropWhile_eq_self_of_head (fun c hc => hl c (by rwa [List.head?_reverse] at hc))]
  exact List.reverse_reverse x

theorem stripItem_clean {z : Str} (h : cleanItemB z = true) :
    ((((stripStr z).dropWhile (fun c => c = '"' || c = '\'')).reverse).dropWhile
      (fun c => c = '"' || c = '\'')).reverse = z := by
  obtain ⟨-, h2, -, -, h5, h6, h7, h8⟩ := cleanItem_parts h
  rw [h2]
  exact stripQuotes_clean
    (fun c hc hp => by
      simp only [Bool.or_eq_true, decide_eq_true_eq] at hp
      rcases hp with rfl | rfl
      · exact h5 hc
      · exact h6 hc)
    (fun c hc hp => by
      simp only [Bool.or_eq_true, decide_eq_true_eq] at hp
      rcases hp with rfl | rfl
      · exact h7 hc
      · exact h8 hc)

theorem classifyVal_renderValStr {v : Value} (h : cleanValB v = true) :
    classifyVal (renderValStr v) = v := by
  cases v with
  | vnull => decide
  | vstr s =>
    obtain ⟨h1, -, -, h4, h5, h6, h7, h8⟩ := cleanStr_parts h
    show classifyVal s = .vstr s
    unfold classifyVal
    rw [if_neg (by simp [h1, h4, h5]), if_neg (fun hb => h6 (by simpa using hb)),
      if_neg (fun hb => h7 (by simpa using hb)), if_neg (fun hb => h8 (by simpa using hb))]
  | vlist xs =>
    cases xs with
    | nil => decide
    | cons x xs =>
      have hall : ∀ y ∈ x :: xs, cleanItemB y = true := by
        simpa [cleanValB, List.all_eq_true] using h
      have hcomma : ∀ y ∈ x :: xs, ',' ∉ y :=
        fun y hy => (cleanItem_parts (hall y hy)).2.2.1
      rw [show renderValStr (Value.vlist (x :: xs)) =
        '[' :: (joinWith (lit ", ") (x :: xs) ++ [']']) from by simp [renderValStr]]
      unfold classifyVal
      rw [if_neg ?hc1, if_pos ?hc2]
      case hc1 =>
        intro hb
        simp only [Bool.or_eq_true, decide_eq_true_eq] at hb
        rcases hb with (hb | hb) | hb
        · have h9 : List.head? (lowerStr ('[' :: (joinWith (lit ", ") (x :: xs) ++ [']']))) =
            some (Char.toLower '[') := rfl
          rw [hb] at h9
          exact absurd h9 (by decide)
        · have h9 : List.head? (lowerStr ('[' :: (joinWith (lit ", ") (x :: xs) ++ [']']))) =
            some (Char.toLower '[') := rfl
          rw [hb] at h9
          exact absurd h9 (by decide)
        · simp at hb
      case hc2 =>
        have hlast : ('[' :: (joinWith (lit ", ") (x :: xs) ++ [']'])).getLast? = some ']' := by
          rw [show '[' :: (joinWith (lit ", ") (x :: xs) ++ [']']) =
            ('[' :: joinWith (lit ", ") (x :: xs)) ++ [']'] from rfl]
          exact List.getLast?_concat _
        simp [hlast]
      dsimp only
      rw [show ('[' :: (joinWith (lit ", ") (x :: xs) ++ [']'])).drop 1 =
        joinWith (lit ", ") (x :: xs) ++ [']'] from rfl]
      rw [List.dropLast_concat, splitSep_comma_joinWith hcomma]
      have hfilter : (x :: xs.map (' ' :: ·)).filter (fun it => stripStr it ≠ []) =
          x :: xs.map (' ' :: ·) := by
        rw [List.filter_eq_self]
        intro a ha
        rcases List.mem_cons.mp ha with rfl | ha2
        · have hp := cleanItem_parts (hall a (by simp))
          simp [hp.2.1, hp.1]
        · obtain ⟨z, hz, rfl⟩ := List.mem_map.mp ha2
          have hp := cleanItem_parts (hall z (List.mem_cons_of_mem x hz))
          simp [stripStr_cons_space, hp.2.1, hp.1]
      rw [hfilter]
      rw [List.map_cons, stripItem_clean (hall x (by simp)), List.map_map]
      have hmap : ∀ z ∈ xs,
          (((fun it => ((((stripStr it).dropWhile (fun c => c = '"' || c = '\'')).reverse).dropWhile
            (fun c => c = '"' || c = '\'')).reverse) ∘ (' ' :: ·)) z) = z := by
        intro z hz
        have hp := hall z (List.mem_cons_of_mem x hz)
        show ((((stripStr (' ' :: z)).dropWhile (fun c => c = '"' || c = '\'')).reverse).dropWhile
          (fun c => c = '"' || c = '\'')).reverse = z
        rw [stripStr_cons_space]
        exact stripItem_clean hp
      rw [List.map_congr_left hmap, List.map_id']

theorem splitOnFirst_colon {k t : Str} (hk : ':' ∉ k) :
    splitOnFirst [':'] (k ++ ':' :: t) = some (k, t) := by
  induction k with
  | nil =>
    simp only [List.nil_append, splitOnFirst]
    rw [if_pos (by simp [List.isPrefixOf] : (([':'] : Str).isPrefixOf (':' :: t)) = true)]
    rfl
  | cons c cs ih =>
    simp only [List.mem_cons, not_or] at hk
    have h1 : (([':'] : Str).isPrefixOf (c :: (cs ++ ':' :: t))) = false :=
      isPrefixOf_cons_false hk.1
    simp only [List.cons_append, splitOnFirst, h1, Bool.false_eq_true, if_false,
      List.append_eq]
    rw [ih hk.2]

theorem assocSet_fresh {acc : Fm} {k : Str} {v : Value}
    (h : ∀ a ∈ acc, a.1 ≠ k) : assocSet acc k v = acc ++ [(k, v)] := by
  induction acc with
  | nil => rfl
  | cons a rest ih =>
    have ha : a.1 ≠ k := h a (by simp)
    rcases a with ⟨k', v'⟩
    simp only [assocSet, if_neg ha, List.cons_append]
    rw [ih (fun b hb => h b (List.mem_cons_of_mem _ hb))]

theorem cleanKey_parts {k : Str} (h : cleanKeyB k = true) :
    k ≠ [] ∧ stripStr k = k ∧ ':' ∉ k ∧ '\n' ∉ k := by
  simp only [cleanKeyB, Bool.and_eq_true] at h
  obtain ⟨⟨⟨h1, h2⟩, h3⟩, h4⟩ := h
  exact ⟨by simpa [List.isEmpty_iff] using h1, (beq_iff_eq.mp h2).symm,
    by simpa using h3, by simpa using h4⟩

/-- Reading one rendered `key: value` line back adds exactly that pair. -/
theorem parseLineStep_renderLine {k : Str} {v : Value} {acc : Fm}
    (hck : cleanKeyB k = true) (hcv : cleanValB v = true)
    (hfresh : ∀ a ∈ acc, a.1 ≠ k) :
    parseLineStep acc (renderLine (k, v)) = acc ++ [(k, v)] := by
  obtain ⟨-, hks, hkc, -⟩ := cleanKey_parts hck
  rw [renderLine_eq, List.append_assoc,
    show lit ": " ++ renderValStr v = ':' :: (' ' :: renderValStr v) from rfl]
  unfold parseLineStep
  rw [splitOnFirst_colon hkc]
  show assocSet acc (stripStr k) (classifyVal (stripStr (' ' :: renderValStr v))) =
    acc ++ [(k, v)]
  rw [show stripStr (' ' :: renderValStr v) = stripStr (renderValStr v) from
    stripStr_cons_space _, stripStr_renderValStr hcv, classifyVal_renderValStr hcv,
    hks, assocSet_fresh hfresh]

theorem keysDistinct_parts {e : Str × Value} {rest : Fm}
    (h : keysDistinct (e :: rest) = true) :
    e.1 ∉ rest.map (·.1) ∧ keysDistinct rest = true := by
  have h' : (!(rest.map (·.1)).contains e.1 && keysDistinct rest) = true := h
  simp only [Bool.and_eq_true] at h'
  refine ⟨fun hm => ?_, h'.2⟩
  have h1 := h'.1
  rw [Bool.not_eq_true'] at h1
  rw [show (rest.map (·.1)).contains e.1 = (rest.map (·.1)).elem e.1 from rfl,
    List.elem_eq_true_of_mem hm] at h1
  cases h1

theorem foldl_parseLineStep_renderLines {m : Fm} :
    ∀ acc, (∀ e ∈ m, cleanKeyB e.1 = true ∧ cleanValB e.2 = true) →
    keysDistinct m = true → (∀ e ∈ m, ∀ a ∈ acc, a.1 ≠ e.1) →
    (m.map renderLine).foldl parseLineStep acc = acc ++ m := by
  induction m with
  | nil => intro acc _ _ _; simp
  | cons e rest ih =>
    intro acc hc hdist hfresh
    rcases e with ⟨k, v⟩
    obtain ⟨hk1, hdist'⟩ := keysDistinct_parts hdist
    simp only [List.map_cons, List.foldl_cons]
    rw [parseLineStep_renderLine (hc (k, v) (by simp)).1 (hc (k, v) (by simp)).2
      (hfresh (k, v) (by simp))]
    rw [ih (acc ++ [(k, v)]) (fun e he => hc e (List.mem_cons_of_mem _ he)) hdist' ?_]
    · simp
    · intro e he a ha
      rcases List.mem_append.mp ha with ha2 | ha2
      · exact hfresh e (List.mem_cons_of_mem _ he) a ha2
      · rcases List.mem_singleton.mp ha2 with rfl
        intro hkk
        exact hk1 (by rw [hkk]; exact List.mem_map_of_mem _ he)

theorem joinSep_cons {sep : Char} (l : Str) (ls : List Str) (h : ls ≠ []) :
    joinSep sep (l :: ls) = l ++ sep :: joinSep sep ls := by
  cases ls with
  | nil => exact absurd rfl h
  | cons m ms => rfl

theorem joinSep_concat {sep : Char} {ls : List Str} {y : Str} (h : ls ≠ []) :
    joinSep sep (ls ++ [y]) = joinSep sep ls ++ sep :: y := by
  induction ls with
  | nil => exact absurd rfl h
  | cons l ls ih =>
    cases ls with
    | nil => rfl
    | cons m ms =>
      rw [show (l :: m :: ms) ++ [y] = l :: ((m :: ms) ++ [y]) from rfl,
        joinSep_cons _ _ (by simp), ih (by simp),
        joinSep_cons l (m :: ms) (by simp)]
      simp

theorem renderFm_shape {m : Fm} (hne : m ≠ []) :
    renderFm m = lit "---\n" ++ (joinSep '\n' (m.map renderLine) ++ lit "\n---\n") := by
  have hlines : m.map renderLine ≠ [] := by simpa using hne
  unfold renderFm
  rw [List.cons_append,
    joinSep_cons (lit "---") (m.map renderLine ++ [lit "---"]) (by simp),
    joinSep_concat hlines,
    show lit "---\n" = lit "---" ++ ['\n'] from rfl,
    show lit "\n---\n" = '\n' :: (lit "---" ++ ['\n']) from rfl]
  simp [List.append_assoc]

theorem colon_mem_renderLine (e : Str × Value) : ':' ∈ renderLine e := by
  rcases e with ⟨k, v⟩
  rw [renderLine_eq]
  exact List.mem_append.mpr (Or.inl (List.mem_append.mpr (Or.inr (by decide))))

theorem nl_not_mem_renderLine {e : Str × Value} (hk : cleanKeyB e.1 = true)
    (hv : cleanValB e.2 = true) : '\n' ∉ renderLine e := by
  rcases e with ⟨k, v⟩
  rw [renderLine_eq]
  intro hmem
  rcases List.mem_append.mp hmem with h1 | h1
  · rcases List.mem_append.mp h1 with h2 | h2
    · exact (cleanKey_parts hk).2.2.2 h2
    · exact absurd h2 (by decide)
  · exact nl_not_mem_renderValStr hv h1

theorem cleanFm_parts {m : Fm} (h : cleanFmB m = true) :
    keysDistinct m = true ∧ ∀ e ∈ m, cleanKeyB e.1 = true ∧ cleanValB e.2 = true := by
  simp only [cleanFmB, Bool.and_eq_true, List.all_eq_true] at h
  exact ⟨h.1, fun e he => by
    have h2 := h.2 e he
    simpa [Bool.and_eq_true] using h2⟩

theorem dash_line_of_between {E : Str} (u w : Str)
    (hE : E = u ++ '\n' :: (lit "---" ++ '\n' :: w)) : lit "---" ∈ splitLines E := by
  rw [hE, splitLines_append, splitLines_append]
  exact List.mem_append.mpr (Or.inr (List.mem_append.mpr (Or.inl (by decide))))

theorem dash_line_of_suffix {E : Str} (u : Str)
    (hE : E = u ++ '\n' :: lit "---") : lit "---" ∈ splitLines E := by
  rw [hE, splitLines_append]
  exact List.mem_append.mpr (Or.inr (by decide))

/-- No occurrence of the closing delimiter starts strictly inside the
rendered key-value block. -/
theorem no_early_delim {E body : Str} (hnoDash : lit "---" ∉ splitLines E) :
    ∀ x, x <:+ E → x ≠ [] → ¬ (lit "\n---\n") <+: (x ++ lit "\n---\n" ++ body) := by
  intro x hx hxne hp
  rw [List.append_assoc] at hp
  rcases prefix_append_cases hp with hcase | ⟨hlt, htake, hdrop⟩
  · obtain ⟨w, hw⟩ := hcase
    obtain ⟨u, hu⟩ := hx
    refine hnoDash (dash_line_of_between u w ?_)
    rw [← hu, ← hw]
    rw [show (lit "\n---\n") = '\n' :: (lit "---" ++ ['\n']) from rfl]
    simp [List.append_assoc]
  · have hplen : x.length < 5 := by
      have : (lit "\n---\n").length = 5 := rfl
      omega
    have hpos : 0 < x.length := List.length_pos.mpr hxne
    have hdrop' : (lit "\n---\n").drop x.length <+: lit "\n---\n" :=
      prefix_of_prefix_append hdrop (by simp [List.length_drop])
    interval_cases hxl : x.length
    · exact absurd hdrop' (by decide)
    · exact absurd hdrop' (by decide)
    · exact absurd hdrop' (by decide)
    · obtain ⟨u, hu⟩ := hx
      refine hnoDash (dash_line_of_suffix u ?_)
      rw [← hu, htake]
      rfl

theorem fmSplit_render_append {m : Fm} (hclean : cleanFmB m = true) (hne : m ≠ [])
    (body : Str) :
    fmSplit (renderFm m ++ body) = some (joinSep '\n' (m.map renderLine), body) := by
  obtain ⟨hdist, hall⟩ := cleanFm_parts hclean
  have hlineNl : ∀ l ∈ m.map renderLine, '\n' ∉ l := by
    intro l hl
    obtain ⟨e, he, rfl⟩ := List.mem_map.mp hl
    exact nl_not_mem_renderLine (hall e he).1 (hall e he).2
  have hEsplit : splitLines (joinSep '\n' (m.map renderLine)) = m.map renderLine :=
    splitSep_joinSep (by simpa using hne) hlineNl
  have hnoDash : lit "---" ∉ splitLines (joinSep '\n' (m.map renderLine)) := by
    rw [hEsplit]
    intro hmem
    obtain ⟨e, he, heq⟩ := List.mem_map.mp hmem
    have hcol : ':' ∈ renderLine e := colon_mem_renderLine e
    rw [heq] at hcol
    exact absurd hcol (by decide)
  rw [renderFm_shape hne, List.append_assoc, List.append_assoc]
  unfold fmSplit
  rw [if_pos (List.isPrefixOf_iff_prefix.mpr (List.prefix_append _ _))]
  rw [show (lit "---\n" ++ (joinSep '\n' (m.map renderLine) ++ (lit "\n---\n" ++ body))).drop 4 =
    joinSep '\n' (m.map renderLine) ++ (lit "\n---\n" ++ body) from by
      rw [show (4 : Nat) = (lit "---\n").length from rfl]
      exact List.drop_left _ _]
  rw [show joinSep '\n' (m.map renderLine) ++ (lit "\n---\n" ++ body) =
    joinSep '\n' (m.map renderLine) ++ lit "\n---\n" ++ body from by
      rw [List.append_assoc]]
  exact splitOnFirst_boundary (by decide) (no_early_delim hnoDash)

/-- Round trip of the fallback codec with an arbitrary body attached. -/
theorem parseFm_render_append {m : Fm} (hclean : cleanFmB m = true) (hne : m ≠ [])
    (body : Str) : parseFm (renderFm m ++ body) = (m, body) := by
  obtain ⟨hdist, hall⟩ := cleanFm_parts hclean
  rw [parseFm, fmSplit_render_append hclean hne body]
  dsimp only
  have hEsplit : splitLines (joinSep '\n' (m.map renderLine)) = m.map renderLine :=
    splitSep_joinSep (by simpa using hne) (by
      intro l hl
      obtain ⟨e, he, rfl⟩ := List.mem_map.mp hl
      exact nl_not_mem_renderLine (hall e he).1 (hall e he).2)
  rw [show parseBasicFm (joinSep '\n' (m.map renderLine)) = m from by
    rw [parseBasicFm, hEsplit]
    rw [foldl_parseLineStep_renderLines [] hall hdist (by simp)]
    rfl]

/-- C6 (amended): the fallback-codec round trip `parse_frontmatter
(render_frontmatter m) = (m, "")` holds, with key insertion order preserved,
for every NONEMPTY mapping whose keys are nonempty, colon-free,
whitespace-clean strings and whose values are None, clean scalar strings, or
lists of clean bracket-free strings — exactly the shapes the scripts write.
The empty mapping is the exception exhibited by the counterexample: `render
{}` yields `---\n---\n`, which the parser does not recognise as frontmatter
and returns undivided as the body. -/
theorem C6_roundtrip_clean {m : Fm} (hclean : cleanFmB m = true) (hne : m ≠ []) :
    parseFm (renderFm m) = (m, []) := by
  have h := parseFm_render_append hclean hne []
  rwa [List.append_nil] at h

/-! ## The status-rewrite scan on canonical documents (for C4)

A canonical document body is `pre ++ "## Status\n\n" ++ v ++ "\n" ++ b`
with a clean status value `v` and no further `## Status` literal; on such
bodies `re.subn` with the status pattern performs exactly one
replacement. -/

theorem tails_cond_append {q1 q2 t : Str} (h1 : '#' ∉ q1)
    (h2 : ∀ x ∈ q2.tails, x ≠ [] → (lit "## Status").isPrefixOf (x ++ t) = false) :
    ∀ x ∈ (q1 ++ q2).tails, x ≠ [] → (lit "## Status").isPrefixOf (x ++ t) = false := by
  intro x hx hxne
  rw [List.mem_tails] at hx
  obtain ⟨u, hu⟩ := hx
  rcases le_or_lt q1.length u.length with hle | hlt
  · have hq1u : q1 <+: u := by
      refine List.prefix_of_prefix_length_le ?_ (List.prefix_append u x) hle
      exact hu ▸ List.prefix_append q1 q2
    obtain ⟨u', hu'⟩ := hq1u
    have hx2 : u' ++ x = q2 := by
      have h3 := hu
      rw [← hu', List.append_assoc] at h3
      exact List.append_cancel_left h3
    exact h2 x ((List.mem_tails _ _).mpr ⟨u', hx2⟩) hxne
  · have hx2 : x = q1.drop u.length ++ q2 := by
      have h3 : (u ++ x).drop u.length = (q1 ++ q2).drop u.length := by rw [hu]
      rw [List.drop_left, List.drop_append_eq_append_drop,
        Nat.sub_eq_zero_of_le (le_of_lt hlt), List.drop_zero] at h3
      exact h3
    rcases hd : q1.drop u.length with _ | ⟨d, ds⟩
    · have : q1.length - u.length = 0 := by
        have := congrArg List.length hd
        simpa using this
      omega
    · have hdq : d ∈ q1 := List.drop_subset u.length q1 (hd ▸ List.mem_cons_self d ds)
      have hdch : d ≠ '#' := fun h => h1 (h ▸ hdq)
      rw [hx2, hd]
      rw [show ((d :: ds) ++ q2) ++ t = d :: (ds ++ q2 ++ t) by simp]
      rw [show lit "## Status" = '#' :: lit "# Status" from rfl]
      exact isPrefixOf_cons_false (fun h => hdch h.symm)

theorem statusSubnAux_append_clean (rep : Str) {q t : Str}
    (h : ∀ x ∈ q.tails, x ≠ [] → (lit "## Status").isPrefixOf (x ++ t) = false) :
    statusSubnAux rep 0 (q ++ t) =
      (q ++ (statusSubnAux rep 0 t).1, (statusSubnAux rep 0 t).2) := by
  induction q with
  | nil => simp
  | cons c cs ih =>
    have hf := h (c :: cs) ((List.mem_tails _ _).mpr List.suffix_rfl) (by simp)
    have hmh : statusMatchHere (c :: (cs ++ t)) = none := by
      rw [show c :: (cs ++ t) = (c :: cs) ++ t from rfl, statusMatchHere, hf]
      rfl
    rw [show (c :: cs) ++ t = c :: (cs ++ t) from rfl]
    rw [statusSubnAux, hmh]
    rw [ih (fun x hx hne => h x (by rw [List.tails_cons]; exact List.mem_cons_of_mem _ hx) hne)]
    rfl

theorem statusSubnAux_skip (rep : Str) (j t : Str) :
    statusSubnAux rep j.length (j ++ t) = statusSubnAux rep 0 t := by
  induction j with
  | nil => rfl
  | cons c cs ih =>
    rw [show (c :: cs) ++ t = c :: (cs ++ t) from rfl,
      show (c :: cs).length = cs.length + 1 from rfl, statusSubnAux]
    exact ih

theorem statusSubnAux_no_occurrence (rep : Str) {u : Str}
    (h : containsSub (lit "## Status") u = false) : statusSubnAux rep 0 u = (u, 0) := by
  induction u with
  | nil => rfl
  | cons c cs ih =>
    rw [containsSub, Bool.or_eq_false_iff] at h
    have hmh : statusMatchHere (c :: cs) = none := by
      rw [statusMatchHere, h.1]
      rfl
    rw [statusSubnAux, hmh, ih h.2]

theorem statusMatchHere_canonical (c : Char) (vs b : Str)
    (hcs : isSpacePy c = false) (hch : c ≠ '#')
    (hclean : ∀ ch ∈ vs, ch ≠ '\n' ∧ ch ≠ '#') :
    statusMatchHere (lit "## Status\n\n" ++ (c :: vs) ++ '\n' :: b) =
      some (lit "## Status\n\n", c :: vs, '\n' :: b) := by
  have hcn : c ≠ '\n' := by
    intro h
    rw [h] at hcs
    exact absurd hcs (by decide)
  have hshape : lit "## Status\n\n" ++ (c :: vs) ++ '\n' :: b =
      lit "## Status" ++ ('\n' :: '\n' :: c :: (vs ++ '\n' :: b)) := by
    rw [show lit "## Status\n\n" = lit "## Status" ++ ['\n', '\n'] from rfl]
    simp
  have hvsa : validStartAt ('\n' :: '\n' :: c :: (vs ++ '\n' :: b)) 2 = true := by
    simp [validStartAt, hcn, hch]
  have hg2 : ∀ p : Char → Bool, p c = true → (∀ ch ∈ vs, p ch = true) → p '\n' = false →
      (c :: (vs ++ '\n' :: b)).takeWhile p = c :: vs := by
    intro p hpc hpvs hpn
    rw [List.takeWhile_cons, if_pos hpc, takeWhile_append_all ('\n' :: b) hpvs,
      List.takeWhile_cons, if_neg (by simp [hpn])]
    simp
  have hr2 : ('\n' :: '\n' :: c :: (vs ++ '\n' :: b)).drop (2 + (c :: vs).length) =
      '\n' :: b := by
    rw [show ('\n' :: '\n' :: c :: (vs ++ '\n' :: b)) =
      ('\n' :: '\n' :: c :: vs) ++ '\n' :: b from by simp]
    rw [show (2 + (c :: vs).length) = (('\n' :: '\n' :: c :: vs) : Str).length from by
      simp
      omega]
    exact List.drop_left _ _
  rw [hshape, statusMatchHere]
  rw [if_pos (show (lit "## Status").isPrefixOf
    (lit "## Status" ++ ('\n' :: '\n' :: c :: (vs ++ '\n' :: b))) = true from
    List.isPrefixOf_iff_prefix.mpr (List.prefix_append _ _))]
  dsimp only
  rw [show (lit "## Status" ++ ('\n' :: '\n' :: c :: (vs ++ '\n' :: b))).drop 9 =
      '\n' :: '\n' :: c :: (vs ++ '\n' :: b) from by
    rw [show (9 : Nat) = (lit "## Status").length from rfl]
    exact List.drop_left _ _]
  rw [show ('\n' :: '\n' :: c :: (vs ++ '\n' :: b)).takeWhile isSpacePy = ['\n', '\n'] from by
    rw [List.takeWhile_cons, List.takeWhile_cons, List.takeWhile_cons]
    simp [hcs, show isSpacePy '\n' = true from by decide]]
  rw [show descendD (fun d => ((['\n', '\n'] : Str).take d).contains '\n' &&
      validStartAt ('\n' :: '\n' :: c :: (vs ++ '\n' :: b)) d) (['\n', '\n'] : Str).length =
      some 2 from by
    rw [show ((['\n', '\n'] : Str).length) = 2 from rfl, descendD]
    rw [if_pos (by simp [hvsa])]]
  dsimp only
  rw [show (('\n' :: '\n' :: c :: (vs ++ '\n' :: b)).drop 2) = c :: (vs ++ '\n' :: b) from rfl]
  rw [hg2 _ (by simp [hcn, hch]) (fun ch hc2 => by
    simp [(hclean ch hc2).1, (hclean ch hc2).2]) (by simp)]
  rw [hr2]
  rfl

theorem statusSubn_canonical (rep : Str) (q : Str) (c : Char) (vs b : Str)
    (hq : ∀ x ∈ q.tails, x ≠ [] →
        (lit "## Status").isPrefixOf
          (x ++ (lit "## Status\n\n" ++ (c :: vs) ++ '\n' :: b)) = false)
    (hcs : isSpacePy c = false) (hch : c ≠ '#')
    (hclean : ∀ ch ∈ vs, ch ≠ '\n' ∧ ch ≠ '#')
    (hb : containsSub (lit "## Status") ('\n' :: b) = false) :
    statusSubn rep (q ++ (lit "## Status\n\n" ++ (c :: vs) ++ '\n' :: b)) =
      (q ++ (lit "## Status\n\n" ++ rep ++ '\n' :: b), 1) := by
  have hcore : statusSubnAux rep 0 (lit "## Status\n\n" ++ (c :: vs) ++ '\n' :: b) =
      (lit "## Status\n\n" ++ rep ++ '\n' :: b, 1) := by
    rw [show lit "## Status\n\n" ++ (c :: vs) ++ '\n' :: b =
      '#' :: (lit "# Status\n\n" ++ (c :: vs) ++ '\n' :: b) from by
      rw [show lit "## Status\n\n" = '#' :: lit "# Status\n\n" from rfl]
      simp]
    rw [statusSubnAux]
    rw [show statusMatchHere ('#' :: (lit "# Status\n\n" ++ (c :: vs) ++ '\n' :: b)) =
      some (lit "## Status\n\n", c :: vs, '\n' :: b) from by
      rw [← statusMatchHere_canonical c vs b hcs hch hclean]
      rfl]
    dsimp only
    rw [show (lit "# Status\n\n" ++ (c :: vs) ++ '\n' :: b).length -
        (('\n' :: b : Str)).length = ((lit "# Status\n\n" ++ (c :: vs)) : Str).length from by
      simp only [List.length_append, List.length_cons]
      omega]
    rw [show lit "# Status\n\n" ++ (c :: vs) ++ '\n' :: b =
      (lit "# Status\n\n" ++ (c :: vs)) ++ '\n' :: b from rfl]
    rw [statusSubnAux_skip rep (lit "# Status\n\n" ++ (c :: vs)) ('\n' :: b)]
    rw [statusSubnAux_no_occurrence rep hb]
  rw [statusSubn, statusSubnAux_append_clean rep hq, hcore]

/-- `update_status_in_content` on a canonical document: nonempty clean
frontmatter followed by a body `pre ++ "## Status\n\n" ++ v ++ "\n" ++ b`
whose `pre` part starts no `## Status` match, whose status value `v` is a
nonempty `\n`/`#`-free run not led by whitespace, and whose remainder
contains no further `## Status`.  The frontmatter `status` key is set to
the lower-cased new status (surrounding whitespace NOT stripped),
`modified` is set to today, and the body status line is replaced by the
title-cased new status. -/
theorem updateStatusInContent_canonical (today s : Str) {m : Fm}
    (hm : cleanFmB m = true) (hmne : m ≠ [])
    (pre : Str) (c : Char) (vs b : Str)
    (hhash : '#' ∉ renderFm (assocSet (assocSet m (lit "status") (Value.vstr (lowerStr s)))
        (lit "modified") (Value.vstr today)))
    (hpre : ∀ x ∈ pre.tails, x ≠ [] →
        (lit "## Status").isPrefixOf
          (x ++ (lit "## Status\n\n" ++ (c :: vs) ++ '\n' :: b)) = false)
    (hcs : isSpacePy c = false) (hch : c ≠ '#')
    (hclean : ∀ ch ∈ vs, ch ≠ '\n' ∧ ch ≠ '#')
    (hb : containsSub (lit "## Status") ('\n' :: b) = false) :
    updateStatusInContent today s
        (renderFm m ++ (pre ++ (lit "## Status\n\n" ++ (c :: vs) ++ '\n' :: b))) =
      .ok (renderFm (assocSet (assocSet m (lit "status") (Value.vstr (lowerStr s)))
            (lit "modified") (Value.vstr today)) ++
          (pre ++ (lit "## Status\n\n" ++ titleStr s ++ '\n' :: b))) := by
  rw [updateStatusInContent, parseFm_render_append hm hmne]
  dsimp only
  rw [if_pos hmne]
  rw [show renderFm (assocSet (assocSet m (lit "status") (Value.vstr (lowerStr s)))
        (lit "modified") (Value.vstr today)) ++
      (pre ++ (lit "## Status\n\n" ++ (c :: vs) ++ '\n' :: b)) =
    (renderFm (assocSet (assocSet m (lit "status") (Value.vstr (lowerStr s)))
        (lit "modified") (Value.vstr today)) ++ pre) ++
      (lit "## Status\n\n" ++ (c :: vs) ++ '\n' :: b) from
    (List.append_assoc _ _ _).symm]
  rw [statusSubn_canonical (titleStr s) _ c vs b
    (tails_cond_append hhash hpre) hcs hch hclean hb]
  dsimp only
  rw [if_neg (by decide)]
  rw [List.append_assoc]

/-- C4 is wrong as stated: the status string `" accepted"` (leading
space) is not a case-insensitive member of the ADR valid-status set, yet
`update_status` succeeds with it — `validate_status` strips surrounding
whitespace before its membership test, so the claimed `InvalidStatus`
failure does not occur, and the body receives the title-cased unstripped
value `" Accepted"`. -/
theorem C4_counterexample :
    (let st : PState := ⟨⟨[(lit "001-use-x.md",
          lit "# T\n\n## Status\n\nProposed\n")], []⟩, ⟨[], []⟩, ⟨[], []⟩, ⟨[], []⟩⟩
     ((getValidStatuses DType.adr).map lowerStr).contains (lowerStr (lit " accepted")) =
       false ∧
     updateDocumentStatus (lit "2026-10-12") (lit "ADR-001") (lit " accepted") st =
       (.ok (DType.adr, lit "001-use-x.md", Value.vstr (lit "Proposed"), false),
        writeActive st DType.adr (lit "001-use-x.md")
          (lit "# T\n\n## Status\n\n Accepted\n"))) := by
  decide

/-- C4 (amended): `update_status(id, s)` fails with `InvalidStatus`, state
unchanged, whenever `s.lower().strip()` — surrounding whitespace removed,
so whitespace-padded variants of valid statuses are accepted, contrary to
the claim — is not in the lower-cased valid set; and for every `s` whose
stripped lower-casing is a member it proceeds, and on a canonical document
(clean nonempty frontmatter, a well-formed `## Status` section, no stray
`## Status` literal) it succeeds, writing `s.lower()` (unstripped) as the
frontmatter status, stamping `modified`, and title-casing the body status
line. -/
theorem C4_status_legality :
    (∀ today docId s st ty n, parseDocId docId = .ok (ty, n) →
        ((getValidStatuses ty).map lowerStr).contains (stripStr (lowerStr s)) = false →
        updateDocumentStatus today docId s st = (.error .invalidStatus, st)) ∧
    (∀ today docId s st ty n name (m : Fm) pre c vs b,
        parseDocId docId = .ok (ty, n) →
        ((getValidStatuses ty).map lowerStr).contains (stripStr (lowerStr s)) = true →
        findActive (dirOf st ty) (pfxOf ty) n =
          some (name, renderFm m ++ (pre ++ (lit "## Status\n\n" ++ (c :: vs) ++ '\n' :: b))) →
        strMem (lit "archive") (partsOf ty name) = false →
        cleanFmB m = true → m ≠ [] →
        '#' ∉ renderFm (assocSet (assocSet m (lit "status") (Value.vstr (lowerStr s)))
            (lit "modified") (Value.vstr today)) →
        (∀ x ∈ pre.tails, x ≠ [] →
          (lit "## Status").isPrefixOf
            (x ++ (lit "## Status\n\n" ++ (c :: vs) ++ '\n' :: b)) = false) →
        isSpacePy c = false → c ≠ '#' →
        (∀ ch ∈ vs, ch ≠ '\n' ∧ ch ≠ '#') →
        containsSub (lit "## Status") ('\n' :: b) = false →
        updateDocumentStatus today docId s st =
          (.ok (ty, name,
             extractCurrentStatus
               (renderFm m ++ (pre ++ (lit "## Status\n\n" ++ (c :: vs) ++ '\n' :: b))),
             isArchiveTrigger ty s),
           writeActive st ty name
             (renderFm (assocSet (assocSet m (lit "status") (Value.vstr (lowerStr s)))
                 (lit "modified") (Value.vstr today)) ++
               (pre ++ (lit "## Status\n\n" ++ titleStr s ++ '\n' :: b))))) := by
  constructor
  · intro today docId s st ty n hp hbad
    have hv : validStatusQ ty s = false := hbad
    rw [updateDocumentStatus, hp]
    dsimp only
    rw [hv]
    rfl
  · intro today docId s st ty n name m pre c vs b hp hgood hfind harch hm hmne hhash
      hpre hcs hch hcl hb
    have hv : validStatusQ ty s = true := hgood
    rw [updateDocumentStatus, hp]
    dsimp only
    rw [hv]
    simp only [Bool.not_true]
    rw [if_neg (by simp)]
    rw [hfind]
    dsimp only
    rw [harch]
    rw [if_neg (by simp)]
    rw [updateStatusInContent_canonical today s hm hmne pre c vs b hhash hpre hcs hch hcl hb]

/-- Witness for C4: `"bogus"` is rejected with `InvalidStatus` on the
empty project, and `"Accepted"` succeeds on a canonical ADR document,
lower-casing the frontmatter status and title-casing the body line. -/
theorem C4_witness :
    (updateDocumentStatus (lit "2026-10-12") (lit "ADR-001") (lit "bogus")
        ⟨⟨[], []⟩, ⟨[], []⟩, ⟨[], []⟩, ⟨[], []⟩⟩ =
      (.error .invalidStatus, ⟨⟨[], []⟩, ⟨[], []⟩, ⟨[], []⟩, ⟨[], []⟩⟩)) ∧
    (updateDocumentStatus (lit "2026-10-12") (lit "ADR-001") (lit "Accepted")
        ⟨⟨[(lit "001-t.md",
            renderFm [(lit "status", Value.vstr (lit "proposed"))] ++
              (lit "\n# T\n\n" ++ (lit "## Status\n\n" ++ ('P' :: lit "roposed") ++
                '\n' :: lit "\nBody.\n")))], []⟩, ⟨[], []⟩, ⟨[], []⟩, ⟨[], []⟩⟩ =
      (.ok (DType.adr, lit "001-t.md",
         extractCurrentStatus
           (renderFm [(lit "status", Value.vstr (lit "proposed"))] ++
             (lit "\n# T\n\n" ++ (lit "## Status\n\n" ++ ('P' :: lit "roposed") ++
               '\n' :: lit "\nBody.\n"))),
         isArchiveTrigger DType.adr (lit "Accepted")),
       writeActive
         ⟨⟨[(lit "001-t.md",
             renderFm [(lit "status", Value.vstr (lit "proposed"))] ++
               (lit "\n# T\n\n" ++ (lit "## Status\n\n" ++ ('P' :: lit "roposed") ++
                 '\n' :: lit "\nBody.\n")))], []⟩, ⟨[], []⟩, ⟨[], []⟩, ⟨[], []⟩⟩
         DType.adr (lit "001-t.md")
         (renderFm (assocSet (assocSet [(lit "status", Value.vstr (lit "proposed"))]
               (lit "status") (Value.vstr (lowerStr (lit "Accepted"))))
             (lit "modified") (Value.vstr (lit "2026-10-12"))) ++
           (lit "\n# T\n\n" ++ (lit "## Status\n\n" ++ titleStr (lit "Accepted") ++
             '\n' :: lit "\nBody.\n"))))) :=
  ⟨C4_status_legality.1 (lit "2026-10-12") (lit "ADR-001") (lit "bogus") _
      DType.adr 1 (by decide) (by decide),
   C4_status_legality.2 (lit "2026-10-12") (lit "ADR-001") (lit "Accepted") _
      DType.adr 1 (lit "001-t.md") [(lit "status", Value.vstr (lit "proposed"))]
      (lit "\n# T\n\n") 'P' (lit "roposed") (lit "\nBody.\n")
      (by decide) (by decide) (by decide) (by decide) (by decide) (by decide)
      (by decide) (by decide) (by decide) (by decide) (by decide) (by decide)⟩

/-! ## The addendum appender (for C8) -/

theorem rstrip_prefix (s : Str) : rstrip s <+: s := by
  rw [rstrip]
  have h : s.reverse.dropWhile isSpacePy <:+ s.reverse := List.dropWhile_suffix _
  have h2 := List.reverse_prefix.mpr h
  rwa [List.reverse_reverse] at h2

theorem fmSplit_none_of_head {content : Str}
    (hhead : content.head? ≠ some '-') : fmSplit content = none := by
  have hfm : (lit "---\n").isPrefixOf content = false := by
    rcases content with _ | ⟨d, ds⟩
    · rfl
    · rcases eq_or_ne d '-' with hd | hd
      · exact absurd (by subst hd; rfl) hhead
      · exact isPrefixOf_cons_false (fun h => hd h.symm)
  rw [fmSplit, hfm]
  rfl

theorem hasAddenda_after (X Y : Str) : hasAddenda (X ++ addendaSep ++ Y) = true := by
  rw [hasAddenda]
  apply containsSub_of_infix
  refine ⟨lowerStr X ++ ['\n'], lowerStr Y, ?_⟩
  rw [show addendaSep = '\n' :: lit "\n---\n\n## Addenda\n" from rfl]
  rw [show lowerStr (lit "\n---\n\n## Addenda\n") = lit "\n---\n\n## addenda\n" from rfl]
  simp only [lowerStr, List.map_append]
  rw [show List.map Char.toLower ('\n' :: lit "\n---\n\n## Addenda\n") =
    '\n' :: lit "\n---\n\n## addenda\n" from rfl]
  simp

theorem lstripNl_entry (Y : Str) : lstripNl ('\n' :: (lit "### " ++ Y)) = lit "### " ++ Y := by
  rw [lstripNl, List.dropWhile_cons, if_pos (by simp)]
  exact dropWhile_eq_self_of_head (fun c hc => by
    rw [show ((lit "### " ++ Y : Str)).head? = some '#' from rfl] at hc
    cases hc
    simp)

/-- `append_addendum` on a document with no frontmatter and no Addenda
marker yet: the rule and the marker are created, then the dated
subsection. -/
theorem appendAddendum_fresh (today title body content : Str)
    (hhead : content.head? ≠ some '-')
    (hadd : hasAddenda content = false) :
    appendAddendumC today title body content =
      rstrip content ++ addendaSep ++
        (lit "### " ++ (today ++ (lit ": " ++ (title ++ (lit "\n\n" ++ (body ++ ['\n'])))))) := by
  have hpf : parseFm content = ([], content) := by
    rw [parseFm, fmSplit_none_of_head hhead]
  rw [appendAddendumC, hpf]
  dsimp only
  rw [show (if ([] : Fm) ≠ [] then
      renderFm (assocSet [] (lit "modified") (Value.vstr today)) ++ content else content) =
    content from by simp]
  rw [hadd, if_neg (by simp)]
  simp only [List.cons_append, List.append_assoc]
  rw [lstripNl_entry]

/-- `append_addendum` on a document that already has the Addenda marker:
the dated subsection is appended after `rstrip`, nothing is created,
merged or deduplicated. -/
theorem appendAddendum_existing (today title body content : Str)
    (hhead : content.head? ≠ some '-')
    (hadd : hasAddenda content = true) :
    appendAddendumC today title body content =
      rstrip content ++
        ('\n' :: (lit "### " ++ (today ++ (lit ": " ++ (title ++ (lit "\n\n" ++ (body ++ ['\n']))))))) := by
  have hpf : parseFm content = ([], content) := by
    rw [parseFm, fmSplit_none_of_head hhead]
  rw [appendAddendumC, hpf]
  dsimp only
  rw [show (if ([] : Fm) ≠ [] then
      renderFm (assocSet [] (lit "modified") (Value.vstr today)) ++ content else content) =
    content from by simp]
  rw [hadd, if_pos rfl]
  simp [List.append_assoc]

theorem splitLines_nil : splitLines ([] : Str) = [[]] := rfl

theorem splitLines_cons_nl (X : Str) : splitLines ('\n' :: X) = [] :: splitLines X := by
  have h := splitLines_append [] X
  simpa using h

theorem addendaSep_decomp :
    addendaSep = '\n' :: '\n' :: (lit "---" ++ '\n' :: '\n' :: (lit "## Addenda" ++ ['\n'])) :=
  rfl

theorem hashHeader_ne_addenda (Z : Str) : lit "### " ++ Z ≠ lit "## Addenda" := by
  intro h
  rw [show (lit "### " ++ Z : Str) = '#' :: '#' :: '#' :: (' ' :: Z) from rfl,
    show lit "## Addenda" = '#' :: '#' :: (' ' :: lit "Addenda") from rfl] at h
  simp at h

theorem hashHeader_has_pfx (Z : Str) : (lit "### ").isPrefixOf (lit "### " ++ Z) = true :=
  List.isPrefixOf_iff_prefix.mpr (List.prefix_append _ _)

/-- C8: two `append_addendum` calls with the same date, title and body on
a canonical frontmatter document create the horizontal rule and the
`## Addenda` marker exactly once (on the first call), and stack two
verbatim dated `### <date>: <title>` subsections — nothing is merged or
deduplicated even though the titles are identical: the final text is
computed exactly, and its line list contains exactly one `## Addenda`
line and exactly two `### `-headed subsection lines. -/
theorem C8_two_addenda (today title abody : Str) (m : Fm) (db : Str)
    (hm : cleanFmB m = true) (hmne : m ≠ [])
    (hm1 : cleanFmB (assocSet m (lit "modified") (Value.vstr today)) = true)
    (hm1ne : assocSet m (lit "modified") (Value.vstr today) ≠ [])
    (hdbne : db ≠ []) (hdbclean : rstrip db = db)
    (habne : abody ≠ []) (habclean : rstrip abody = abody)
    (htoday : '\n' ∉ today) (htitle : '\n' ∉ title)
    (hadd1 : hasAddenda (renderFm (assocSet m (lit "modified") (Value.vstr today)) ++
        (db ++ ['\n'])) = false)
    (hRl : ∀ l ∈ splitLines (renderFm (assocSet (assocSet m (lit "modified")
          (Value.vstr today)) (lit "modified") (Value.vstr today)) ++ db),
        l ≠ lit "## Addenda" ∧ (lit "### ").isPrefixOf l = false)
    (hBl : ∀ l ∈ splitLines abody,
        l ≠ lit "## Addenda" ∧ (lit "### ").isPrefixOf l = false) :
    appendAddendumC today title abody
        (appendAddendumC today title abody (renderFm m ++ (db ++ ['\n']))) =
      renderFm (assocSet (assocSet m (lit "modified") (Value.vstr today))
          (lit "modified") (Value.vstr today)) ++
        (db ++ (addendaSep ++ (lit "### " ++ (today ++ (lit ": " ++ (title ++ (lit "\n\n" ++
          (abody ++ ('\n' :: (lit "### " ++ (today ++ (lit ": " ++ (title ++ (lit "\n\n" ++
            (abody ++ ['\n']))))))))))))))) ∧
    (splitLines (appendAddendumC today title abody
        (appendAddendumC today title abody (renderFm m ++ (db ++ ['\n']))))).count
      (lit "## Addenda") = 1 ∧
    (splitLines (appendAddendumC today title abody
        (appendAddendumC today title abody (renderFm m ++ (db ++ ['\n']))))).countP
      (fun l => (lit "### ").isPrefixOf l) = 2 := by
  have hfirst : appendAddendumC today title abody (renderFm m ++ (db ++ ['\n'])) =
      renderFm (assocSet m (lit "modified") (Value.vstr today)) ++
        (db ++ (addendaSep ++ (lit "### " ++ (today ++ (lit ": " ++ (title ++ (lit "\n\n" ++
          (abody ++ ['\n'])))))))) := by
    rw [appendAddendumC, parseFm_render_append hm hmne]
    dsimp only
    rw [if_pos hmne]
    have hadd1' : hasAddenda ((renderFm (assocSet m (lit "modified") (Value.vstr today)) ++ db)
        ++ ['\n']) = false := by
      rw [List.append_assoc]
      exact hadd1
    rw [show renderFm (assocSet m (lit "modified") (Value.vstr today)) ++ (db ++ ['\n']) =
      (renderFm (assocSet m (lit "modified") (Value.vstr today)) ++ db) ++ ['\n'] from
      (List.append_assoc _ _ _).symm]
    rw [hadd1', if_neg (by simp)]
    rw [rstrip_append_of_clean hdbne hdbclean]
    simp only [List.cons_append, List.append_assoc]
    rw [lstripNl_entry]
  have hsecond : appendAddendumC today title abody
      (renderFm (assocSet m (lit "modified") (Value.vstr today)) ++
        (db ++ (addendaSep ++ (lit "### " ++ (today ++ (lit ": " ++ (title ++ (lit "\n\n" ++
          (abody ++ ['\n']))))))))) =
      renderFm (assocSet (assocSet m (lit "modified") (Value.vstr today))
          (lit "modified") (Value.vstr today)) ++
        (db ++ (addendaSep ++ (lit "### " ++ (today ++ (lit ": " ++ (title ++ (lit "\n\n" ++
          (abody ++ ('\n' :: (lit "### " ++ (today ++ (lit ": " ++ (title ++ (lit "\n\n" ++
            (abody ++ ['\n']))))))))))))))) := by
    rw [appendAddendumC, parseFm_render_append hm1 hm1ne]
    dsimp only
    rw [if_pos hm1ne]
    rw [show hasAddenda (renderFm (assocSet (assocSet m (lit "modified") (Value.vstr today))
          (lit "modified") (Value.vstr today)) ++
        (db ++ (addendaSep ++ (lit "### " ++ (today ++ (lit ": " ++ (title ++ (lit "\n\n" ++
          (abody ++ ['\n']))))))))) = true from by
      rw [show renderFm (assocSet (assocSet m (lit "modified") (Value.vstr today))
            (lit "modified") (Value.vstr today)) ++
          (db ++ (addendaSep ++ (lit "### " ++ (today ++ (lit ": " ++ (title ++ (lit "\n\n" ++
            (abody ++ ['\n'])))))))) =
        (renderFm (assocSet (assocSet m (lit "modified") (Value.vstr today))
            (lit "modified") (Value.vstr today)) ++ db) ++ addendaSep ++
          (lit "### " ++ (today ++ (lit ": " ++ (title ++ (lit "\n\n" ++
            (abody ++ ['\n'])))))) from by
        simp [List.append_assoc]]
      exact hasAddenda_after _ _]
    rw [if_pos rfl]
    rw [show renderFm (assocSet (assocSet m (lit "modified") (Value.vstr today))
          (lit "modified") (Value.vstr today)) ++
        (db ++ (addendaSep ++ (lit "### " ++ (today ++ (lit ": " ++ (title ++ (lit "\n\n" ++
          (abody ++ ['\n'])))))))) =
      (renderFm (assocSet (assocSet m (lit "modified") (Value.vstr today))
          (lit "modified") (Value.vstr today)) ++
        (db ++ (addendaSep ++ (lit "### " ++ (today ++ (lit ": " ++ (title ++
          lit "\n\n"))))))) ++ abody ++ ['\n'] from by
      simp [List.append_assoc]]
    rw [rstrip_append_of_clean habne habclean]
    simp only [List.cons_append, List.append_assoc]
  rw [hfirst, hsecond]
  have hHr : '\n' ∉ (lit "### " ++ (today ++ (lit ": " ++ title)) : Str) := by
    intro hmem
    rcases List.mem_append.mp hmem with h | h
    · exact absurd h (by decide)
    rcases List.mem_append.mp h with h | h
    · exact htoday h
    rcases List.mem_append.mp h with h | h
    · exact absurd h (by decide)
    · exact htitle h
  have hlines : splitLines
      (renderFm (assocSet (assocSet m (lit "modified") (Value.vstr today))
          (lit "modified") (Value.vstr today)) ++
        (db ++ (addendaSep ++ (lit "### " ++ (today ++ (lit ": " ++ (title ++ (lit "\n\n" ++
          (abody ++ ('\n' :: (lit "### " ++ (today ++ (lit ": " ++ (title ++ (lit "\n\n" ++
            (abody ++ ['\n'])))))))))))))))) =
      splitLines (renderFm (assocSet (assocSet m (lit "modified") (Value.vstr today))
          (lit "modified") (Value.vstr today)) ++ db) ++
        ([] :: lit "---" :: [] :: lit "## Addenda" ::
          (lit "### " ++ (today ++ (lit ": " ++ title))) :: [] ::
          (splitLines abody ++
            (lit "### " ++ (today ++ (lit ": " ++ title))) :: [] ::
              (splitLines abody ++ [[]]))) := by
    rw [show renderFm (assocSet (assocSet m (lit "modified") (Value.vstr today))
          (lit "modified") (Value.vstr today)) ++
        (db ++ (addendaSep ++ (lit "### " ++ (today ++ (lit ": " ++ (title ++ (lit "\n\n" ++
          (abody ++ ('\n' :: (lit "### " ++ (today ++ (lit ": " ++ (title ++ (lit "\n\n" ++
            (abody ++ ['\n']))))))))))))))) =
      (renderFm (assocSet (assocSet m (lit "modified") (Value.vstr today)) (lit "modified") (Value.vstr today)) ++ db) ++ '\n' :: ('\n' :: (lit "---" ++ '\n' :: ('\n' :: (lit "## Addenda" ++ '\n' :: ((lit "### " ++ (today ++ (lit ": " ++ title))) ++ '\n' :: ('\n' :: (abody ++ '\n' :: ((lit "### " ++ (today ++ (lit ": " ++ title))) ++ '\n' :: ('\n' :: (abody ++ '\n' :: ([] : Str))))))))))) from by
      rw [addendaSep_decomp, show (lit "\n\n" : Str) = ['\n', '\n'] from rfl]
      simp [List.append_assoc]]
    simp only [splitLines_append, splitLines_cons_nl, splitLines_nil,
      splitLines_of_no_nl (show ('\n' : Char) ∉ lit "---" from by decide),
      splitLines_of_no_nl (show ('\n' : Char) ∉ lit "## Addenda" from by decide),
      splitLines_of_no_nl hHr]
    simp
  refine ⟨rfl, ?_, ?_⟩
  · rw [hlines, List.count_append]
    have hR0 : (splitLines (renderFm (assocSet (assocSet m (lit "modified")
          (Value.vstr today)) (lit "modified") (Value.vstr today)) ++ db)).count
        (lit "## Addenda") = 0 :=
      List.count_eq_zero.mpr (fun hmem => (hRl _ hmem).1 rfl)
    have hB0 : (splitLines abody).count (lit "## Addenda") = 0 :=
      List.count_eq_zero.mpr (fun hmem => (hBl _ hmem).1 rfl)
    have hne1 : ((lit "### " ++ (today ++ (lit ": " ++ title)) : Str) =
        lit "## Addenda") = False :=
      eq_false (hashHeader_ne_addenda _)
    simp +decide [List.count_cons, List.count_append, hR0, hB0, List.count_eq_zero, hne1]
  · rw [hlines, List.countP_append]
    have hpR : (splitLines (renderFm (assocSet (assocSet m (lit "modified")
          (Value.vstr today)) (lit "modified") (Value.vstr today)) ++ db)).countP
        (fun l => (lit "### ").isPrefixOf l) = 0 :=
      List.countP_eq_zero.mpr (fun l hmem => by simp [(hRl l hmem).2])
    have hpB : (splitLines abody).countP (fun l => (lit "### ").isPrefixOf l) = 0 :=
      List.countP_eq_zero.mpr (fun l hmem => by simp [(hBl l hmem).2])
    have hp1 : (lit "### ").isPrefixOf (lit "### " ++ (today ++ (lit ": " ++ title))) = true :=
      hashHeader_has_pfx _
    simp +decide [List.countP_cons, List.countP_append, hpR, hpB, hp1]

/-- Witness for C8: on a concrete ADR-style document, appending the same
addendum twice yields one `## Addenda` marker line and two `### `-headed
subsection lines. -/
theorem C8_witness :
    (splitLines (appendAddendumC (lit "2026-10-12") (lit "Note") (lit "Text.")
        (appendAddendumC (lit "2026-10-12") (lit "Note") (lit "Text.")
          (renderFm [(lit "status", Value.vstr (lit "proposed"))] ++
            (lit "# T" ++ ['\n']))))).count (lit "## Addenda") = 1 ∧
    (splitLines (appendAddendumC (lit "2026-10-12") (lit "Note") (lit "Text.")
        (appendAddendumC (lit "2026-10-12") (lit "Note") (lit "Text.")
          (renderFm [(lit "status", Value.vstr (lit "proposed"))] ++
            (lit "# T" ++ ['\n']))))).countP
      (fun l => (lit "### ").isPrefixOf l) = 2 :=
  ⟨(C8_two_addenda (lit "2026-10-12") (lit "Note") (lit "Text.")
      [(lit "status", Value.vstr (lit "proposed"))] (lit "# T")
      (by decide) (by decide) (by decide) (by decide) (by decide) (by decide)
      (by decide) (by decide) (by decide) (by decide) (by decide) (by decide)
      (by decide)).2.1,
   (C8_two_addenda (lit "2026-10-12") (lit "Note") (lit "Text.")
      [(lit "status", Value.vstr (lit "proposed"))] (lit "# T")
      (by decide) (by decide) (by decide) (by decide) (by decide) (by decide)
      (by decide) (by decide) (by decide) (by decide) (by decide) (by decide)
      (by decide)).2.2⟩

/-! ## Decimal digits and the numbering invariant (for C5) -/

theorem digitsToNat_foldl (s : Str) (a : Nat) :
    s.foldl (fun a c => a * 10 + (c.toNat - '0'.toNat)) a =
      a * 10 ^ s.length + digitsToNat s := by
  induction s generalizing a with
  | nil => simp [digitsToNat]
  | cons c cs ih =>
    rw [List.foldl_cons, ih]
    conv_rhs => rw [digitsToNat, List.foldl_cons]
    rw [ih]
    simp only [List.length_cons, pow_succ]
    ring

theorem digitsToNat_cons (c : Char) (cs : Str) :
    digitsToNat (c :: cs) = (c.toNat - '0'.toNat) * 10 ^ cs.length + digitsToNat cs := by
  rw [digitsToNat, List.foldl_cons, digitsToNat_foldl]
  simp

theorem digitsToNat_append (xs ys : Str) :
    digitsToNat (xs ++ ys) = digitsToNat xs * 10 ^ ys.length + digitsToNat ys := by
  rw [digitsToNat, List.foldl_append, digitsToNat_foldl ys]
  rfl

theorem digitChar_val {d : Nat} (h : d < 10) :
    (Nat.digitChar d).toNat - '0'.toNat = d := by
  interval_cases d <;> rfl

theorem digitChar_isDigit {d : Nat} (h : d < 10) : (Nat.digitChar d).isDigit = true := by
  interval_cases d <;> rfl

theorem toDigitsCore_val : ∀ (fuel n : Nat) (ds : Str), n < 10 ^ fuel →
    digitsToNat (Nat.toDigitsCore 10 fuel n ds) = n * 10 ^ ds.length + digitsToNat ds := by
  intro fuel
  induction fuel with
  | zero =>
    intro n ds h
    have hn : n = 0 := by simpa using h
    subst hn
    simp [Nat.toDigitsCore]
  | succ fuel ih =>
    intro n ds h
    rw [Nat.toDigitsCore]
    rcases Nat.eq_zero_or_pos (n / 10) with h0 | hpos
    · rw [if_pos h0]
      rw [digitsToNat_cons, digitChar_val (Nat.mod_lt _ (by norm_num))]
      rw [Nat.mod_eq_of_lt (by omega)]
    · rw [if_neg (by omega)]
      rw [ih (n / 10) (Nat.digitChar (n % 10) :: ds) (by
        have h10 : (10 : Nat) ^ (fuel + 1) = 10 ^ fuel * 10 := pow_succ 10 fuel
        omega)]
      rw [digitsToNat_cons, digitChar_val (Nat.mod_lt _ (by norm_num))]
      rw [List.length_cons, pow_succ]
      have hdm := Nat.div_add_mod n 10
      conv_rhs => rw [← hdm]
      ring

theorem digitsToNat_natDigits (n : Nat) : digitsToNat (natDigits n) = n := by
  have h1 : n < 2 ^ n := Nat.lt_two_pow n
  have h2 : (2 : Nat) ^ n ≤ 10 ^ n := Nat.pow_le_pow_left (by norm_num) n
  have h3 : (10 : Nat) ^ n ≤ 10 ^ (n + 1) := Nat.pow_le_pow_right (by norm_num) (Nat.le_succ n)
  rw [natDigits, Nat.toDigits, toDigitsCore_val (n + 1) n [] (by omega)]
  simp [digitsToNat]

theorem toDigitsCore_digits : ∀ (fuel n : Nat) (ds : Str),
    (∀ c ∈ ds, c.isDigit = true) →
    ∀ c ∈ Nat.toDigitsCore 10 fuel n ds, c.isDigit = true := by
  intro fuel
  induction fuel with
  | zero =>
    intro n ds h
    simpa [Nat.toDigitsCore] using h
  | succ fuel ih =>
    intro n ds h
    rw [Nat.toDigitsCore]
    have hd : ∀ c ∈ Nat.digitChar (n % 10) :: ds, c.isDigit = true := by
      intro c hc
      rcases List.mem_cons.mp hc with rfl | hc2
      · exact digitChar_isDigit (Nat.mod_lt _ (by norm_num))
      · exact h c hc2
    split
    · exact hd
    · exact ih (n / 10) _ hd

theorem toDigitsCore_ne_nil : ∀ (fuel n : Nat) (ds : Str), ds ≠ [] ∨ 0 < fuel →
    Nat.toDigitsCore 10 fuel n ds ≠ [] := by
  intro fuel
  induction fuel with
  | zero =>
    intro n ds h
    rcases h with h | h
    · simpa [Nat.toDigitsCore] using h
    · omega
  | succ fuel ih =>
    intro n ds h
    rw [Nat.toDigitsCore]
    split
    · simp
    · exact ih (n / 10) _ (Or.inl (by simp))

theorem digitsToNat_replicate_zero (k : Nat) :
    digitsToNat (List.replicate k '0') = 0 := by
  induction k with
  | zero => rfl
  | succ k ih =>
    rw [List.replicate_succ, digitsToNat_cons, ih]
    simp

theorem digitsToNat_pad3 (n : Nat) : digitsToNat (pad3 n) = n := by
  rw [pad3]
  rw [digitsToNat_append, digitsToNat_replicate_zero, digitsToNat_natDigits]
  simp

theorem allDigits_pad3 (n : Nat) : ∀ c ∈ pad3 n, Char.isDigit c = true := by
  intro c hc
  rw [pad3] at hc
  rcases List.mem_append.mp hc with h | h
  · rw [List.eq_of_mem_replicate h]
    rfl
  · exact toDigitsCore_digits (n + 1) n [] (by simp) c h

theorem pad3_ne_nil (n : Nat) : pad3 n ≠ [] := by
  rw [pad3]
  intro h
  rcases List.append_eq_nil.mp h with ⟨-, h2⟩
  exact toDigitsCore_ne_nil (n + 1) n [] (Or.inr (by omega)) h2

theorem collapseRuns_chars {p : Char → Bool} {rep : Char} :
    ∀ (b : Bool) (s : Str) (c : Char), c ∈ collapseRuns p rep b s →
      c = rep ∨ (c ∈ s ∧ p c = false) := by
  intro b s
  induction s generalizing b with
  | nil =>
    intro c hc
    simp [collapseRuns] at hc
  | cons x xs ih =>
    intro c hc
    rw [collapseRuns] at hc
    by_cases hx : p x = true
    · rw [if_pos hx] at hc
      by_cases hb : b = true
      · rw [if_pos hb] at hc
        rcases ih true c hc with h | ⟨h1, h2⟩
        · exact Or.inl h
        · exact Or.inr ⟨List.mem_cons_of_mem _ h1, h2⟩
      · rw [if_neg hb] at hc
        rcases List.mem_cons.mp hc with rfl | hc2
        · exact Or.inl rfl
        · rcases ih true c hc2 with h | ⟨h1, h2⟩
          · exact Or.inl h
          · exact Or.inr ⟨List.mem_cons_of_mem _ h1, h2⟩
    · rw [if_neg hx] at hc
      rcases List.mem_cons.mp hc with rfl | hc2
      · exact Or.inr ⟨List.mem_cons_self _ _, by simpa using hx⟩
      · rcases ih false c hc2 with h | ⟨h1, h2⟩
        · exact Or.inl h
        · exact Or.inr ⟨List.mem_cons_of_mem _ h1, h2⟩

theorem slugify_no_nl (title : Str) : '\n' ∉ slugify title := by
  intro h
  rw [slugify] at h
  rw [List.mem_reverse] at h
  have h2 := (List.dropWhile_suffix _).subset h
  rw [List.mem_reverse] at h2
  have h3 := (List.dropWhile_suffix _).subset h2
  rcases collapseRuns_chars false _ _ h3 with h4 | ⟨h4, -⟩
  · exact absurd h4 (by decide)
  rcases collapseRuns_chars false _ _ h4 with h5 | ⟨-, h5⟩
  · exact absurd h5 (by decide)
  · exact absurd h5 (by decide)

theorem matchNumber_format (pfx : Str) (n : Nat) {slug : Str} (hslug : '\n' ∉ slug) :
    matchNumber pfx (formatFilename pfx n slug) = some n := by
  rw [matchNumber, formatFilename]
  rw [show pfx ++ pad3 n ++ '-' :: slug ++ lit ".md" =
    pfx ++ (pad3 n ++ ('-' :: (slug ++ lit ".md"))) from by simp]
  rw [if_pos (List.isPrefixOf_iff_prefix.mpr (List.prefix_append _ _))]
  rw [List.drop_left]
  dsimp only
  rw [takeWhile_append_all ('-' :: (slug ++ lit ".md")) (allDigits_pad3 n)]
  rw [List.takeWhile_cons, if_neg (by simp), List.append_nil]
  rw [show (pad3 n ++ ('-' :: (slug ++ lit ".md"))).drop (pad3 n).length =
    '-' :: (slug ++ lit ".md") from List.drop_left _ _]
  show (if (decide (pad3 n ≠ ([] : Str)) && !(slug ++ lit ".md").contains '\n' &&
      List.isSuffixOf (lit ".md") (slug ++ lit ".md")) = true then
      some (digitsToNat (pad3 n)) else none) = some n
  rw [if_pos ?hcond]
  case hcond =>
    have hc2 : (slug ++ lit ".md").contains '\n' = false := by
      by_contra hcon
      rw [Bool.not_eq_false] at hcon
      have hmem : '\n' ∈ slug ++ lit ".md" := by simpa using hcon
      rcases List.mem_append.mp hmem with h | h
      · exact hslug h
      · exact absurd h (by decide)
    have hc3 : (lit ".md").isSuffixOf (slug ++ lit ".md") = true := by
      rw [List.isSuffixOf, List.reverse_append]
      exact List.isPrefixOf_iff_prefix.mpr (List.prefix_append _ _)
    simp [pad3_ne_nil n, hc2, hc3]
    exact ⟨hslug, by decide⟩
  rw [digitsToNat_pad3]

theorem dirOf_setDir (st : PState) (ty : DType) (d : Dir) : dirOf (setDir st ty d) ty = d := by
  cases ty <;> rfl

theorem foldl_max_congr {l1 l2 : List Nat} (h : ∀ x, x ∈ l1 ↔ x ∈ l2) :
    l1.foldl Nat.max 0 = l2.foldl Nat.max 0 :=
  Nat.le_antisymm
    (foldl_max_le (fun y hy => mem_le_foldl_max ((h y).mp hy) 0) (Nat.zero_le _))
    (foldl_max_le (fun y hy => mem_le_foldl_max ((h y).mpr hy) 0) (Nat.zero_le _))

theorem findNextNumber_of_iff {pfx : Str} {d : Dir} {c : Nat}
    (h : ∀ x, x ∈ numbersOf pfx d ↔ 1 ≤ x ∧ x ≤ c) :
    findNextNumber pfx d = c + 1 := by
  rw [findNextNumber]
  congr 1
  rcases Nat.eq_zero_or_pos c with rfl | hc
  · rcases hnn : numbersOf pfx d with _ | ⟨y, ys⟩
    · rfl
    · have := (h y).mp (hnn ▸ List.mem_cons_self y ys)
      omega
  · exact foldl_max_eq_of_mem ((h c).mpr ⟨hc, le_refl c⟩) (fun y hy => ((h y).mp hy).2)

theorem createInDir_step {pfx : Str} {d : Dir} {c : Nat} (tmpl title : Str)
    (h : ∀ x, x ∈ numbersOf pfx d ↔ 1 ≤ x ∧ x ≤ c) :
    createInDir tmpl pfx title d =
      (.ok (formatFilename pfx (c + 1) (slugify title), c + 1),
       { d with files := d.files ++ [(formatFilename pfx (c + 1) (slugify title), tmpl)] }) ∧
    (∀ x, x ∈ numbersOf pfx { d with
        files := d.files ++ [(formatFilename pfx (c + 1) (slugify title), tmpl)] } ↔
      1 ≤ x ∧ x ≤ c + 1) := by
  constructor
  · rw [createInDir]
    rw [findNextNumber_of_iff h]
    rw [if_neg ?hcol]
    case hcol =>
      intro hany
      simp only [List.any_eq_true, decide_eq_true_eq] at hany
      obtain ⟨p, hp, hpe⟩ := hany
      have hmem : c + 1 ∈ numbersOf pfx d := by
        rw [numbersOf, List.mem_filterMap]
        refine ⟨p, List.mem_append_left _ hp, ?_⟩
        rw [hpe]
        exact matchNumber_format pfx (c + 1) (slugify_no_nl title)
      have := (h _).mp hmem
      omega
  · intro x
    simp only [numbersOf, List.mem_filterMap]
    constructor
    · rintro ⟨p, hp, hm⟩
      rcases List.mem_append.mp hp with hp2 | hp2
      · rcases List.mem_append.mp hp2 with hp3 | hp3
        · have hx : x ∈ numbersOf pfx d := by
            rw [numbersOf, List.mem_filterMap]
            exact ⟨p, List.mem_append_left _ hp3, hm⟩
          have := (h x).mp hx
          omega
        · have hpe : p = (formatFilename pfx (c + 1) (slugify title), tmpl) := by
            simpa using hp3
          subst hpe
          rw [matchNumber_format pfx (c + 1) (slugify_no_nl title)] at hm
          cases hm
          omega
      · have hx : x ∈ numbersOf pfx d := by
          rw [numbersOf, List.mem_filterMap]
          exact ⟨p, List.mem_append_right _ hp2, hm⟩
        have := (h x).mp hx
        omega
    · rintro ⟨hx1, hx2⟩
      rcases Nat.lt_or_ge x (c + 1) with hlt | hge
      · have hx : x ∈ numbersOf pfx d := (h x).mpr ⟨hx1, by omega⟩
        rw [numbersOf, List.mem_filterMap] at hx
        obtain ⟨p, hp, hm⟩ := hx
        refine ⟨p, ?_, hm⟩
        rcases List.mem_append.mp hp with hp2 | hp2
        · exact List.mem_append_left _ (List.mem_append_left _ hp2)
        · exact List.mem_append_right _ hp2
      · have hx : x = c + 1 := by omega
        subst hx
        exact ⟨(formatFilename pfx (c + 1) (slugify title), tmpl),
          List.mem_append_left _ (List.mem_append_right _ (by simp)),
          matchNumber_format pfx (c + 1) (slugify_no_nl title)⟩

theorem numbersOf_writeActive (pfx : Str) (st : PState) (ty : DType) (name nc : Str) :
    numbersOf pfx (dirOf (writeActive st ty name nc) ty) = numbersOf pfx (dirOf st ty) := by
  rw [writeActive]
  rw [dirOf_setDir, numbersOf, numbersOf]
  dsimp only
  rw [List.filterMap_append, List.filterMap_append]
  congr 1
  rw [List.filterMap_map]
  apply List.filterMap_congr
  intro p hp
  by_cases hpn : p.1 = name
  · simp [hpn]
  · simp [hpn]

theorem mem_filterMap_erase_shuffle {f : Str × Str → Option Nat} (q : Str × Str → Bool) :
    ∀ (l arch : List (Str × Str)) (entry : Str × Str), l.find? q = some entry →
      ∀ x, (x ∈ (l.eraseP q ++ (arch ++ [entry])).filterMap f ↔
        x ∈ (l ++ arch).filterMap f) := by
  intro l
  induction l with
  | nil =>
    intro arch entry hf
    simp at hf
  | cons p ps ih =>
    intro arch entry hf x
    by_cases hq : q p = true
    · rw [List.find?_cons_of_pos _ hq] at hf
      cases hf
      rw [List.eraseP_cons_of_pos hq]
      simp only [List.mem_filterMap, List.mem_append, List.mem_cons, List.mem_singleton]
      constructor
      · rintro ⟨b, hb, hfb⟩
        refine ⟨b, ?_, hfb⟩
        tauto
      · rintro ⟨b, hb, hfb⟩
        refine ⟨b, ?_, hfb⟩
        tauto
    · rw [List.find?_cons_of_neg _ hq] at hf
      rw [List.eraseP_cons_of_neg hq]
      have hih := ih arch entry hf x
      simp only [List.mem_filterMap, List.mem_append, List.mem_cons,
        List.mem_singleton] at hih ⊢
      constructor
      · rintro ⟨b, hb, hfb⟩
        rcases hb with (rfl | hb) | hb
        · exact ⟨b, Or.inl (Or.inl rfl), hfb⟩
        · obtain ⟨b2, hb2, hfb2⟩ := hih.mp ⟨b, by tauto, hfb⟩
          exact ⟨b2, by tauto, hfb2⟩
        · obtain ⟨b2, hb2, hfb2⟩ := hih.mp ⟨b, by tauto, hfb⟩
          exact ⟨b2, by tauto, hfb2⟩
      · rintro ⟨b, hb, hfb⟩
        rcases hb with (rfl | hb) | hb
        · exact ⟨b, Or.inl (Or.inl rfl), hfb⟩
        · obtain ⟨b2, hb2, hfb2⟩ := hih.mpr ⟨b, by tauto, hfb⟩
          exact ⟨b2, by tauto, hfb2⟩
        · obtain ⟨b2, hb2, hfb2⟩ := hih.mpr ⟨b, by tauto, hfb⟩
          exact ⟨b2, by tauto, hfb2⟩

theorem numbersOf_moveToArchive (pfx : Str) (st : PState) (ty : DType) (name : Str)
    (x : Nat) :
    x ∈ numbersOf pfx (dirOf (moveToArchive st ty name) ty) ↔
      x ∈ numbersOf pfx (dirOf st ty) := by
  rw [moveToArchive]
  rcases hf : (dirOf st ty).files.find? (fun p => p.1 = name) with _ | entry
  · rw [hf]
  · rw [hf]
    dsimp only
    rw [dirOf_setDir, numbersOf, numbersOf]
    dsimp only
    exact mem_filterMap_erase_shuffle _ _ _ _ hf x

theorem archiveCore_numbers (today : Str) (ty : DType) (n : Nat) (st : PState)
    (pfx : Str) (x : Nat) :
    x ∈ numbersOf pfx (dirOf (archiveCore today ty n st).2 ty) ↔
      x ∈ numbersOf pfx (dirOf st ty) := by
  rw [archiveCore]
  rcases hfind : findActive (dirOf st ty) (pfxOf ty) n with _ | ⟨name, content⟩
  · rfl
  · dsimp only
    by_cases harc : containsSub (lit "archive") (pathStrOf ty name) = true
    · rw [if_pos harc]
    · rw [if_neg harc]
      rcases hupd : archUpdateStatus today (lit "Archived") content with e | nc
      · rfl
      · dsimp only
        by_cases hex : ((dirOf (writeActive st ty name nc) ty).archived.any
            (fun p => p.1 = name)) = true
        · rw [if_pos hex]
          dsimp only
          rw [numbersOf_writeActive]
        · rw [if_neg hex]
          dsimp only
          rw [numbersOf_moveToArchive, numbersOf_writeActive]

theorem execOps_invariant (today tmpl : Str) (ty : DType) :
    ∀ (ops : List DocOp) (st : PState) (c : Nat),
      (∀ x, x ∈ numbersOf (pfxOf ty) (dirOf st ty) ↔ 1 ≤ x ∧ x ≤ c) →
      (execOps today tmpl ty st ops).2 =
        List.range' (c + 1) (ops.countP (fun op => match op with
          | .create _ => true | .archiveDoc _ => false)) ∧
      (∀ x, x ∈ numbersOf (pfxOf ty) (dirOf (execOps today tmpl ty st ops).1 ty) ↔
        1 ≤ x ∧ x ≤ c + ops.countP (fun op => match op with
          | .create _ => true | .archiveDoc _ => false)) := by
  intro ops
  induction ops with
  | nil =>
    intro st c h
    exact ⟨rfl, by simpa using h⟩
  | cons op rest ih =>
    intro st c h
    rcases op with title | nnum
    · obtain ⟨hcr, hinv⟩ := createInDir_step tmpl title h
      have hop1 : (execOp today tmpl ty st (.create title)).1 =
          setDir st ty { dirOf st ty with files := (dirOf st ty).files ++
            [(formatFilename (pfxOf ty) (c + 1) (slugify title), tmpl)] } := by
        rw [show execOp today tmpl ty st (.create title) =
          (setDir st ty (createInDir tmpl (pfxOf ty) title (dirOf st ty)).2,
           match (createInDir tmpl (pfxOf ty) title (dirOf st ty)).1 with
           | .ok (_, n) => some n | .error _ => none) from rfl]
        rw [hcr]
      have hop2 : (execOp today tmpl ty st (.create title)).2 = some (c + 1) := by
        rw [show execOp today tmpl ty st (.create title) =
          (setDir st ty (createInDir tmpl (pfxOf ty) title (dirOf st ty)).2,
           match (createInDir tmpl (pfxOf ty) title (dirOf st ty)).1 with
           | .ok (_, n) => some n | .error _ => none) from rfl]
        rw [hcr]
      have hinv' : ∀ x, x ∈ numbersOf (pfxOf ty)
          (dirOf (execOp today tmpl ty st (.create title)).1 ty) ↔ 1 ≤ x ∧ x ≤ c + 1 := by
        rw [hop1, dirOf_setDir]
        exact hinv
      obtain ⟨h1, h2⟩ := ih (execOp today tmpl ty st (.create title)).1 (c + 1) hinv'
      have hcnt : (DocOp.create title :: rest).countP (fun op => match op with
          | .create _ => true | .archiveDoc _ => false) =
        rest.countP (fun op => match op with
          | .create _ => true | .archiveDoc _ => false) + 1 := by
        simp [List.countP_cons]
      constructor
      · rw [execOps]
        dsimp only
        rw [hop2, h1, hcnt]
        rfl
      · intro x
        rw [execOps]
        dsimp only
        rw [hcnt, show c + (rest.countP (fun op => match op with
            | .create _ => true | .archiveDoc _ => false) + 1) =
          c + 1 + rest.countP (fun op => match op with
            | .create _ => true | .archiveDoc _ => false) from by omega]
        exact h2 x
    · have hop : execOp today tmpl ty st (.archiveDoc nnum) =
          ((archiveCore today ty nnum st).2, none) := rfl
      have hinv' : ∀ x, x ∈ numbersOf (pfxOf ty)
          (dirOf (archiveCore today ty nnum st).2 ty) ↔ 1 ≤ x ∧ x ≤ c :=
        fun x => (archiveCore_numbers today ty nnum st (pfxOf ty) x).trans (h x)
      obtain ⟨h1, h2⟩ := ih (archiveCore today ty nnum st).2 c hinv'
      have hcnt : (DocOp.archiveDoc nnum :: rest).countP (fun op => match op with
          | .create _ => true | .archiveDoc _ => false) =
        rest.countP (fun op => match op with
          | .create _ => true | .archiveDoc _ => false) := by
        simp [List.countP_cons]
      constructor
      · rw [execOps]
        dsimp only
        rw [hop]
        dsimp only
        rw [h1, hcnt]
        rfl
      · intro x
        rw [execOps]
        dsimp only
        rw [hop]
        dsimp only
        rw [hcnt]
        exact h2 x

/-- C5: document numbers are assigned monotonically per type.  Running any
interleaving of creates and archive steps from the empty project assigns
exactly the numbers `1..N` to the `N` (always-successful) creates, in
order; and an archive operation never changes — in particular never
reduces — the next number `find_next_number` would assign, because it
scans the active directory and its `archive/` child together. -/
theorem C5_number_monotonic :
    (∀ today tmpl ty (ops : List DocOp),
      (execOps today tmpl ty ⟨⟨[], []⟩, ⟨[], []⟩, ⟨[], []⟩, ⟨[], []⟩⟩ ops).2 =
        List.range' 1 (ops.countP (fun op => match op with
          | DocOp.create _ => true | DocOp.archiveDoc _ => false))) ∧
    (∀ today ty n st,
      findNextNumber (pfxOf ty) (dirOf (archiveCore today ty n st).2 ty) =
        findNextNumber (pfxOf ty) (dirOf st ty)) := by
  constructor
  · intro today tmpl ty ops
    have h0 : ∀ x, x ∈ numbersOf (pfxOf ty)
        (dirOf (⟨⟨[], []⟩, ⟨[], []⟩, ⟨[], []⟩, ⟨[], []⟩⟩ : PState) ty) ↔
          1 ≤ x ∧ x ≤ 0 := by
      intro x
      have hempty : numbersOf (pfxOf ty)
          (dirOf (⟨⟨[], []⟩, ⟨[], []⟩, ⟨[], []⟩, ⟨[], []⟩⟩ : PState) ty) = [] := by
        cases ty <;> rfl
      rw [hempty]
      simp
      omega
    have hmain := (execOps_invariant today tmpl ty ops _ 0 h0).1
    simpa using hmain
  · intro today ty n st
    rw [findNextNumber, findNextNumber]
    congr 1
    exact foldl_max_congr (archiveCore_numbers today ty n st (pfxOf ty))

/-- Witness for C6: a concrete two-key mapping with a string value and a
list value round-trips exactly. -/
theorem C6_witness :
    parseFm (renderFm [(lit "status", Value.vstr (lit "draft")),
                       (lit "related", Value.vlist [lit "ADR-001", lit "FDP-002"])]) =
      ([(lit "status", Value.vstr (lit "draft")),
        (lit "related", Value.vlist [lit "ADR-001", lit "FDP-002"])], []) :=
  C6_roundtrip_clean (by decide) (by decide)

end VibeDoc
